import Mathlib

/-!
Shallow embedding of the bender browser-automation extension's command
execution core: the JSON value model used for tool arguments and results,
the Done tool (src/services/automation-tools.js), the command queue
(src/services/command-queue.js), the per-command execution loop
(src/services/command-executor.js), and the LLMinify page serializer
(content script).  Platform pieces (the OpenAI transport, the browser DOM
APIs, JSON.parse) are passed in as explicit environment parameters.
-/

namespace Bender

/-! ### String utilities (model of JavaScript String.prototype.includes) -/

def listPreAux : List Char → List Char → Bool
  | [], _ => true
  | _ :: _, [] => false
  | b :: bs, a :: as => a == b && listPreAux bs as

/-- `pat` is a leading piece of `s`. -/
def listHasPre (s pat : List Char) : Bool := listPreAux pat s

def listHasSub : List Char → List Char → Bool
  | [], pat => pat.isEmpty
  | s :: rest, pat => listHasPre (s :: rest) pat || listHasSub rest pat

/-- Model of JavaScript `haystack.includes(needle)`. -/
def strHasSub (s pat : String) : Bool := listHasSub s.data pat.data

/-- Model of JavaScript `s.trim()`: strip leading and trailing
whitespace. -/
def jsTrim (s : String) : String :=
  String.mk
    (((s.data.dropWhile Char.isWhitespace).reverse.dropWhile
        Char.isWhitespace).reverse)

/-- Model of JavaScript `s.split('\n')`. -/
def splitNlChars : List Char → List (List Char)
  | [] => [[]]
  | c :: cs =>
    if c = '\n' then [] :: splitNlChars cs
    else
      match splitNlChars cs with
      | [] => [[c]]
      | l :: ls => (c :: l) :: ls

def jsSplitNl (s : String) : List String := (splitNlChars s.data).map String.mk

/-! ### JSON values

Model of the JavaScript values flowing through the tools: tool-call
arguments after `JSON.parse`, extracted data payloads, merge results. -/

inductive Json where
  | null
  | bool (b : Bool)
  | num (n : Int)
  | str (s : String)
  | arr (xs : List Json)
  | obj (fields : List (String × Json))

def Json.isArray : Json → Bool
  | .arr _ => true
  | _ => false

def Json.isNull : Json → Bool
  | .null => true
  | _ => false

/-- Property lookup `j.k` on a parsed JSON value (none = undefined). -/
def objGet (j : Json) (k : String) : Option Json :=
  match j with
  | .obj fs => (fs.find? (fun p => p.1 == k)).map (fun p => p.2)
  | _ => none

/-! ### JSON.stringify (model, used by the Done tool to build its sentinel) -/

def escapeStringChars : List Char → List Char
  | [] => []
  | c :: cs =>
    if c == '"' || c == '\\' then '\\' :: c :: escapeStringChars cs
    else c :: escapeStringChars cs

def quoteStr (s : String) : String :=
  "\"" ++ String.mk (escapeStringChars s.data) ++ "\""

mutual
def stringifyJson : Json → String
  | .null => "null"
  | .bool true => "true"
  | .bool false => "false"
  | .num n => toString n
  | .str s => quoteStr s
  | .arr xs => "[" ++ stringifyList xs ++ "]"
  | .obj fs => "\x7b" ++ stringifyFields fs ++ "\x7d"

def stringifyList : List Json → String
  | [] => ""
  | [x] => stringifyJson x
  | x :: y :: xs => stringifyJson x ++ "," ++ stringifyList (y :: xs)

def stringifyFields : List (String × Json) → String
  | [] => ""
  | [(k, v)] => quoteStr k ++ ":" ++ stringifyJson v
  | (k, v) :: f :: fs => quoteStr k ++ ":" ++ stringifyJson v ++ "," ++ stringifyFields (f :: fs)
end

/-! ### The Done tool (automation-tools.js, Done implementation)

`data` is the `data` property of the parsed arguments object:
`none` models JavaScript `undefined`, `some Json.null` models `null`. -/

def doneNullError : String :=
  "Error: Done() called with null data. Please extract the requested data first before calling Done()."

/-- `JSON.stringify(\x7b type: 'COMMAND_COMPLETE', data: parsedData \x7d)` -/
def mkCompletionSentinel (d : Json) : String :=
  stringifyJson (Json.obj [("type", Json.str "COMMAND_COMPLETE"), ("data", d)])

/-- The Done tool implementation.  `parse` models `JSON.parse` (none =
throws).  Validation: null/undefined data returns an error string instead
of the sentinel; string data is parsed if possible; everything else is
wrapped unchanged. -/
def doneImpl (parse : String → Option Json) (data : Option Json) : String :=
  match data with
  | none => doneNullError
  | some Json.null => doneNullError
  | some d =>
    let parsed : Json :=
      match d with
      | Json.str s =>
        match parse s with
        | some j => j
        | none => Json.str s
      | _ => d
    mkCompletionSentinel parsed

/-- The `console.warn` on an empty-array payload (fires without aborting). -/
def doneWarnsEmptyArray (data : Option Json) : Bool :=
  match data with
  | some (Json.arr []) => true
  | _ => false

/-! ### Command queue state (command-queue.js)

Timestamps (`new Date().toLocaleTimeString()`) are wall-clock strings with
no behavioural role and are omitted from the records. -/

inductive Status where
  | executing
  | completed
  | failed
  | stopped
  | retrying
deriving Repr, DecidableEq

structure TokenUsage where
  input : Nat
  output : Nat
  total : Nat
deriving Repr, DecidableEq

def TokenUsage.zero : TokenUsage := ⟨0, 0, 0⟩

def TokenUsage.add (a b : TokenUsage) : TokenUsage :=
  ⟨a.input + b.input, a.output + b.output, a.total + b.total⟩

/-- `usage` object of an OpenAI API response. -/
structure Usage where
  prompt_tokens : Nat
  completion_tokens : Nat
  total_tokens : Nat
deriving Repr, DecidableEq

/-- Delta applied by `updateTokenUsage`: `total_tokens || (input + output)`
(0 is falsy in JavaScript, so a zero total falls back to the sum). -/
def usageDelta (u : Usage) : TokenUsage :=
  ⟨u.prompt_tokens, u.completion_tokens,
   if u.total_tokens = 0 then u.prompt_tokens + u.completion_tokens else u.total_tokens⟩

structure ToolCallEvent where
  name : String
  args : Json
  callId : String

structure ToolResultEvent where
  tool_call_id : String
  content : String
deriving Repr, DecidableEq

/-- Per-attempt execution ledger (the `commandRecord` of executeCommand). -/
structure CommandRecord where
  command : String
  status : Status
  toolCalls : List ToolCallEvent
  toolResults : List ToolResultEvent
  responses : List String
  tokenUsage : TokenUsage
  error : Option String

/-- Queue-owned terminal record (entries of `commandResults`). -/
structure CommandResult where
  command : String
  status : Status
  error : Option String
  data : Json
  commandHistory : List CommandRecord
  tokenUsage : TokenUsage

/-- The mutable refs of command-queue.js that the execution core touches. -/
structure QueueState where
  currentCommands : List String
  currentCommandIndex : Nat
  commandResults : List CommandResult
  isProcessingCommands : Bool
  showResults : Bool
  isPaused : Bool
  shouldStopCurrent : Bool
  currentTokenUsage : TokenUsage
  totalTokenUsage : TokenUsage

/-- Initial value of every ref. -/
def initialQueueState : QueueState :=
  ⟨[], 0, [], false, false, false, false, TokenUsage.zero, TokenUsage.zero⟩

/-! ### addCommandResult (command-queue.js) -/

def isRetryingMatch (cmd : String) (r : CommandResult) : Bool :=
  r.command == cmd && r.status == Status.retrying

/-- Data-combining rules of the retry-merge branch, in the source's
if-chain order: two arrays concatenate; an existing array pushes the new
scalar; a new array unshifts the existing scalar; otherwise a 2-element
array. -/
def mergeData (oldD newD : Json) : Json :=
  match oldD, newD with
  | Json.arr xs, Json.arr ys => Json.arr (xs ++ ys)
  | Json.arr xs, d => Json.arr (xs ++ [d])
  | d, Json.arr ys => Json.arr (d :: ys)
  | d1, d2 => Json.arr [d1, d2]

/-- Retry-merge of a finished retry outcome `r` into the existing
`retrying` entry `old`.  Data merges only when the retry brought data;
counters add, histories concatenate, status/error are overwritten. -/
def mergeResult (old r : CommandResult) : CommandResult :=
  let newData : Json :=
    if r.data.isNull then old.data
    else if old.data.isNull then r.data
    else mergeData old.data r.data
  { old with
    data := newData
    status := r.status
    error := r.error
    commandHistory := old.commandHistory ++ r.commandHistory
    tokenUsage := old.tokenUsage.add r.tokenUsage }

def updateAt (i : Nat) (f : CommandResult → CommandResult) :
    List CommandResult → List CommandResult
  | [] => []
  | x :: xs =>
    match i with
    | 0 => f x :: xs
    | n + 1 => x :: updateAt n f xs

/-- `addCommandResult`: a finished retry (first existing entry with the
same command text in the `retrying` state) is merged in place and the
queue index is left alone; otherwise the result is appended and the index
advances.  (The `setTimeout(processNextCommand, 1000)` scheduling side
effect is asynchronous pacing and not part of the state transition.) -/
def addCommandResult (st : QueueState) (r : CommandResult) : QueueState :=
  match st.commandResults.findIdx? (isRetryingMatch r.command) with
  | some i =>
    { st with commandResults := updateAt i (fun old => mergeResult old r) st.commandResults }
  | none =>
    { st with
      commandResults := st.commandResults ++ [r]
      currentCommandIndex := st.currentCommandIndex + 1 }

/-! ### startCommandQueue / retryCommand (command-queue.js) -/

def parseCommands (text : String) : List String :=
  ((jsSplitNl text).map jsTrim).filter (fun cmd => cmd.length > 0)

/-- `startCommandQueue`.  The returned Bool records whether
`processNextCommand` was invoked (processing began). -/
def startCommandQueue (text : String) (st : QueueState) : QueueState × Bool :=
  if jsTrim text = "" then (st, false)
  else
    let commands := parseCommands text
    if commands.length = 0 then (st, false)
    else
      ({ st with
          currentCommands := commands
          currentCommandIndex := 0
          commandResults := []
          isProcessingCommands := true
          totalTokenUsage := TokenUsage.zero }, true)

/-- `retryCommand`.  The index is an arbitrary integer as in the source
(`commandIndex < 0` guard).  The returned Bool records whether the
execute function was invoked; in the no-op branches the state is returned
untouched. -/
def retryCommand (st : QueueState) (idx : Int) : QueueState × Bool :=
  if idx < 0 ∨ (st.commandResults.length : Int) ≤ idx then (st, false)
  else
    match st.commandResults.get? idx.toNat with
    | none => (st, false)
    | some r =>
      if r.status ≠ Status.failed ∧ r.status ≠ Status.stopped then (st, false)
      else
        ({ st with
            commandResults :=
              updateAt idx.toNat
                (fun r0 => { r0 with status := Status.retrying, error := none })
                st.commandResults
            currentTokenUsage := TokenUsage.zero }, true)

/-! ### Execution loop (command-executor.js)

The OpenAI transport is abstracted as a total stream `responses : Nat →
ModelResponse` giving the message of the k-th successful API call
(k = 0 is the initial call).  The shared stop flag is the ref
`shouldStopCurrent` in the queue state; external `stop()` requests that
arrive between two successive poll points are given by an oracle
`ext : Nat → Bool` indexed by a global poll counter (poll 0 is the
top-of-iteration check of the first loop iteration, the per-call checks
of that batch follow at 1, 2, ...).  Browser-side tool behaviour and
`JSON.parse` are environment parameters. -/

structure ToolCallMsg where
  id : String
  name : String
  arguments : String
deriving Repr, DecidableEq

/-- `response.choices[0].message` together with `response.usage`. -/
structure ModelResponse where
  usage : Option Usage
  content : Option String
  tool_calls : List ToolCallMsg

structure ExecEnv where
  /-- `JSON.parse` (none = throws). -/
  parse : String → Option Json
  /-- `error.message` of the exception `JSON.parse` throws on this input. -/
  parseErrMsg : String → String
  /-- Result string of the five page tools (they catch their own errors
  and always return a string). -/
  pageTool : String → Json → String

/-- The names in the `tools` array of automation-tools.js. -/
def toolNames : List String :=
  ["NavigateToUrl", "ClickElement", "InputText", "GoBack", "Done",
   "GetAbsoluteUrlFromElement"]

def knownTool (name : String) : Bool := toolNames.contains name

/-- `tool.implementation(args)` for a known tool: Done is pure and fully
embedded, the page tools are environment behaviour. -/
def runToolImpl (env : ExecEnv) (name : String) (args : Json) : String :=
  if name == "Done" then doneImpl env.parse (objGet args "data")
  else env.pageTool name args

def stopErrorMsg : String := "Command stopped by user"

def apiKeyErrorMsg : String := "Please configure your API key in settings"

def tokenLimitMsg (maxTokens total : Nat) : String :=
  "Token limit reached (" ++ toString maxTokens ++ "). Current usage: "
    ++ toString total ++ " tokens"

def unknownToolMsg (name : String) : String := "Error: Unknown tool " ++ name

/-- Token accounting applied when a response carries a usage object
(`updateTokenUsage`): both accumulators and the record add the delta. -/
def applyUsage (resp : ModelResponse) (st : QueueState) (rec : CommandRecord) :
    QueueState × CommandRecord :=
  match resp.usage with
  | none => (st, rec)
  | some u =>
    let d := usageDelta u
    ({ st with
        currentTokenUsage := st.currentTokenUsage.add d
        totalTokenUsage := st.totalTokenUsage.add d },
     { rec with tokenUsage := rec.tokenUsage.add d })

/-- The catch block of executeCommand: mark the record failed and push a
failed CommandResult with null data. -/
def failedCommandResult (cmd : String) (hist : List CommandRecord)
    (msg : String) (tok : TokenUsage) : CommandResult :=
  { command := cmd, status := Status.failed, error := some msg,
    data := Json.null, commandHistory := hist, tokenUsage := tok }

def failedOutcome (cmd : String) (hist0 : List CommandRecord) (msg : String)
    (st : QueueState) (rec : CommandRecord) : QueueState × CommandRecord :=
  let rec2 := { rec with status := Status.failed, error := some msg }
  (addCommandResult st
    (failedCommandResult cmd (hist0 ++ [rec2]) msg st.currentTokenUsage), rec2)

/-- The stop branch: `resetStopFlag()`, mark the record stopped, push a
stopped CommandResult. -/
def stoppedOutcome (cmd : String) (hist0 : List CommandRecord)
    (st : QueueState) (rec : CommandRecord) : QueueState × CommandRecord :=
  let rec2 := { rec with status := Status.stopped, error := some stopErrorMsg }
  let st2 := { st with shouldStopCurrent := false }
  (addCommandResult st2
    { command := cmd, status := Status.stopped, error := some stopErrorMsg,
      data := Json.null, commandHistory := hist0 ++ [rec2],
      tokenUsage := st2.currentTokenUsage }, rec2)

/-- The completion branch when a tool result carries the parsed
COMMAND_COMPLETE sentinel: the record gains the raw result, and the
extracted `completionData.data` field is reported. -/
def completedByDone (cmd : String) (hist0 : List CommandRecord)
    (callId : String) (raw : String) (completion : Json)
    (st : QueueState) (rec : CommandRecord) : QueueState × CommandRecord :=
  let rec2 :=
    { rec with
        status := Status.completed
        toolResults := rec.toolResults ++ [⟨callId, raw⟩] }
  let actualData := (objGet completion "data").getD Json.null
  (addCommandResult st
    { command := cmd, status := Status.completed, error := none,
      data := actualData, commandHistory := hist0 ++ [rec2],
      tokenUsage := st.currentTokenUsage }, rec2)

/-- The final-response branch (no more tool calls, or iteration cap
reached): record the assistant text if truthy and report a completed
result with best-effort data. -/
def finishCompleted (cmd : String) (hist0 : List CommandRecord)
    (msg : ModelResponse) (st : QueueState) (rec : CommandRecord) :
    QueueState × CommandRecord :=
  let contentTruthy : Bool :=
    match msg.content with
    | some c => c ≠ ""
    | none => false
  let rec1 :=
    if contentTruthy then
      { rec with responses := rec.responses ++ [msg.content.getD ""] }
    else rec
  let rec2 := { rec1 with status := Status.completed }
  let dataVal : Json :=
    if contentTruthy then Json.str (msg.content.getD "")
    else Json.str "Command completed"
  (addCommandResult st
    { command := cmd, status := Status.completed, error := none,
      data := dataVal, commandHistory := hist0 ++ [rec2],
      tokenUsage := st.currentTokenUsage }, rec2)

/-- The first for-loop over a batch (lines adding to
`commandRecord.toolCalls`): every call's argument string is parsed
*outside* any per-call try/catch, so the first malformed one throws to
the outer catch. -/
def recordToolCalls (env : ExecEnv) :
    List ToolCallMsg → CommandRecord → Except String CommandRecord
  | [], rec => Except.ok rec
  | tc :: rest, rec =>
    match env.parse tc.arguments with
    | none => Except.error (env.parseErrMsg tc.arguments)
    | some args =>
      recordToolCalls env rest
        { rec with toolCalls := rec.toolCalls ++ [⟨tc.name, args, tc.id⟩] }

/-- Textual result content of one dispatched call (the non-terminal
cases: parse failure caught per call, unknown tool, ordinary result). -/
def callContent (env : ExecEnv) (tc : ToolCallMsg) : String :=
  match env.parse tc.arguments with
  | none => "Error: " ++ env.parseErrMsg tc.arguments
  | some args =>
    if knownTool tc.name then runToolImpl env tc.name args
    else unknownToolMsg tc.name

/-- Whether dispatching this call finalizes the command: a known tool
whose result contains COMMAND_COMPLETE and parses as JSON. -/
def callFinalizes (env : ExecEnv) (tc : ToolCallMsg) : Bool :=
  match env.parse tc.arguments with
  | none => false
  | some args =>
    if knownTool tc.name then
      let r := runToolImpl env tc.name args
      strHasSub r "COMMAND_COMPLETE" && (env.parse r).isSome
    else false

inductive BatchOut where
  | more (st : QueueState) (rec : CommandRecord) (poll : Nat)
  | halt (st : QueueState) (rec : CommandRecord)

/-- The second for-loop over a batch: per-call stop poll, then dispatch
with per-call error recovery and sentinel detection. -/
def dispatchCalls (env : ExecEnv) (cmd : String) (hist0 : List CommandRecord)
    (ext : Nat → Bool) :
    List ToolCallMsg → QueueState → CommandRecord → Nat → BatchOut
  | [], st, rec, poll => BatchOut.more st rec poll
  | tc :: rest, st, rec, poll =>
    if st.shouldStopCurrent || ext poll then
      let (st2, rec2) := stoppedOutcome cmd hist0 st rec
      BatchOut.halt st2 rec2
    else
      match env.parse tc.arguments with
      | none =>
        dispatchCalls env cmd hist0 ext rest st
          { rec with toolResults :=
              rec.toolResults ++ [⟨tc.id, "Error: " ++ env.parseErrMsg tc.arguments⟩] }
          (poll + 1)
      | some args =>
        if knownTool tc.name then
          let result := runToolImpl env tc.name args
          if strHasSub result "COMMAND_COMPLETE" then
            match env.parse result with
            | some completion =>
              let (st2, rec2) := completedByDone cmd hist0 tc.id result completion st rec
              BatchOut.halt st2 rec2
            | none =>
              dispatchCalls env cmd hist0 ext rest st
                { rec with toolResults := rec.toolResults ++ [⟨tc.id, result⟩] }
                (poll + 1)
          else
            dispatchCalls env cmd hist0 ext rest st
              { rec with toolResults := rec.toolResults ++ [⟨tc.id, result⟩] }
              (poll + 1)
        else
          dispatchCalls env cmd hist0 ext rest st
            { rec with toolResults :=
                rec.toolResults ++ [⟨tc.id, unknownToolMsg tc.name⟩] }
            (poll + 1)

/-- The while loop of executeCommand.  `fuel` is the number of iterations
still allowed (`maxIterations - iterations`); `round` indexes the next
follow-up API response; `poll` is the global poll counter. -/
def execLoop (env : ExecEnv) (cmd : String) (maxTokens : Nat)
    (responses : Nat → ModelResponse) (ext : Nat → Bool)
    (hist0 : List CommandRecord) :
    Nat → ModelResponse → Nat → Nat → QueueState → CommandRecord →
    QueueState × CommandRecord
  | 0, msg, _, _, st, rec => finishCompleted cmd hist0 msg st rec
  | fuel + 1, msg, round, poll, st, rec =>
    match msg.tool_calls with
    | [] => finishCompleted cmd hist0 msg st rec
    | tc :: rest =>
      if st.shouldStopCurrent || ext poll then
        stoppedOutcome cmd hist0 st rec
      else if maxTokens ≤ st.currentTokenUsage.total then
        failedOutcome cmd hist0
          (tokenLimitMsg maxTokens st.currentTokenUsage.total) st rec
      else
        match recordToolCalls env (tc :: rest) rec with
        | Except.error m => failedOutcome cmd hist0 m st rec
        | Except.ok rec1 =>
          match dispatchCalls env cmd hist0 ext (tc :: rest) st rec1 (poll + 1) with
          | BatchOut.halt st2 rec2 => (st2, rec2)
          | BatchOut.more st2 rec2 poll2 =>
            let stRec := applyUsage (responses round) st2 rec2
            execLoop env cmd maxTokens responses ext hist0
              fuel (responses round) (round + 1) poll2 stRec.1 stRec.2

/-- `executeCommand(command, apiKey, ...)`: reset the per-command token
counter, create the record, check the key, make the initial API call and
run the loop with `maxIterations = min(maxToolCalls, 50)`. -/
def executeCommand (env : ExecEnv) (cmd : String) (apiKeyPresent : Bool)
    (maxToolCalls maxTokens : Nat) (responses : Nat → ModelResponse)
    (ext : Nat → Bool) (hist0 : List CommandRecord) (st0 : QueueState) :
    QueueState × CommandRecord :=
  let st1 := { st0 with currentTokenUsage := TokenUsage.zero }
  let rec0 : CommandRecord :=
    { command := cmd, status := Status.executing, toolCalls := [],
      toolResults := [], responses := [], tokenUsage := TokenUsage.zero,
      error := none }
  if !apiKeyPresent then
    failedOutcome cmd hist0 apiKeyErrorMsg st1 rec0
  else
    let stRec := applyUsage (responses 0) st1 rec0
    execLoop env cmd maxTokens responses ext hist0
      (min maxToolCalls 50) (responses 0) 1 0 stRec.1 stRec.2

/-! ### LLMinify page serializer (content script)

DOM model: a rose tree of elements, text nodes and comments.  Tag and
attribute names are kept lowercase (DOM matching is case-insensitive for
HTML; the source compares `el.tagName` against uppercase control tags,
which is the same predicate).  Computed style is modelled by two boolean
fields carried on each element, copied into the clone with it.  Live
elements are identified by their path (child indices) in the original
document. -/

inductive Node where
  | elem (tag : String) (attrs : List (String × String))
      (dispNone : Bool) (visHidden : Bool) (children : List Node)
  | text (s : String)
  | comment (s : String)

def hasAttrB (attrs : List (String × String)) (k : String) : Bool :=
  attrs.any (fun p => p.1 == k)

def getAttr (attrs : List (String × String)) (k : String) : Option String :=
  (attrs.find? (fun p => p.1 == k)).map (fun p => p.2)

/-- The tag part of `_interactiveSelectors`. -/
def interactiveTags : List String :=
  ["input", "button", "select", "textarea", "option", "a"]

/-- The attribute part of `_interactiveSelectors`. -/
def eventAttrs : List String :=
  ["onclick", "onkeydown", "onkeyup", "onkeypress", "onchange", "oninput",
   "onfocus", "onblur"]

def matchesInteractive (tag : String) (attrs : List (String × String)) : Bool :=
  interactiveTags.contains tag || eventAttrs.any (fun a => hasAttrB attrs a)

/-- `_controlTags` (source stores them uppercase and compares tagName). -/
def controlTags : List String :=
  ["input", "button", "select", "textarea", "option", "a", "img"]

/-- `querySelectorAll(interactiveSelectors)` over a forest: paths (child
index sequences) of the matching elements in document (pre-order) order.
`path` is the position of the forest's parent, `i` the index of the first
sibling. -/
def matchPathsList (path : List Nat) (i : Nat) : List Node → List (List Nat)
  | [] => []
  | Node.elem t a _ _ cs :: rest =>
    (if matchesInteractive t a then [path ++ [i]] else []) ++
    matchPathsList (path ++ [i]) 0 cs ++ matchPathsList path (i + 1) rest
  | _ :: rest => matchPathsList path (i + 1) rest

/-- `document.querySelectorAll(interactiveSelectors)` — the root element
participates (it is part of the document). -/
def docMatchesAll (doc : Node) : List (List Nat) :=
  match doc with
  | Node.elem t a _ _ cs =>
    (if matchesInteractive t a then [[]] else []) ++ matchPathsList [] 0 cs
  | _ => []

/-- Number of interactive-selector matches in a forest. -/
def countList : List Node → Nat
  | [] => 0
  | Node.elem t a _ _ cs :: rest =>
    (if matchesInteractive t a then 1 else 0) + countList cs + countList rest
  | _ :: rest => countList rest

/-- Step 3, `_stripAttributes`: drop every attribute except form-control
state (the `allowed` set in the source is empty).  Applied to
`clone.querySelectorAll('*')`, i.e. to descendants of the root only. -/
def keepAttr (tag : String) (name : String) : Bool :=
  (name == "value" && controlTags.contains tag) ||
  (name == "checked" && tag == "input") ||
  (name == "selected" && tag == "option")

def stripList : List Node → List Node
  | [] => []
  | Node.elem t a d v cs :: rest =>
    Node.elem t (a.filter (fun p => keepAttr t p.1)) d v (stripList cs) :: stripList rest
  | n :: rest => n :: stripList rest

/-- Step 4, `_assignElementIds`: walk the (stripped) clone's descendants
in document order, stamping sequential ids onto interactive elements.
Returns the updated forest and the next counter value. -/
def setAttr (a : List (String × String)) (k v : String) : List (String × String) :=
  if hasAttrB a k then a.map (fun p => if p.1 == k then (k, v) else p)
  else a ++ [(k, v)]

def assignList (ctr : Nat) : List Node → List Node × Nat
  | [] => ([], ctr)
  | Node.elem t a d v cs :: rest =>
    if matchesInteractive t a then
      let r1 := assignList (ctr + 1) cs
      let r2 := assignList r1.2 rest
      (Node.elem t (setAttr a "id" (toString ctr)) d v r1.1 :: r2.1, r2.2)
    else
      let r1 := assignList ctr cs
      let r2 := assignList r1.2 rest
      (Node.elem t a d v r1.1 :: r2.1, r2.2)
  | n :: rest =>
    let r := assignList ctr rest
    (n :: r.1, r.2)

/-- Step 5: blank out script/noscript/style subtree content
(`el.textContent = ''` discards the whole subtree). -/
def scriptTags : List String := ["script", "noscript", "style"]

def blankList : List Node → List Node
  | [] => []
  | Node.elem t a d v cs :: rest =>
    (if scriptTags.contains t then Node.elem t a d v []
     else Node.elem t a d v (blankList cs)) :: blankList rest
  | n :: rest => n :: blankList rest

/-- Step 6, `_removeComments`. -/
def removeCommentsList : List Node → List Node
  | [] => []
  | Node.comment _ :: rest => removeCommentsList rest
  | Node.elem t a d v cs :: rest =>
    Node.elem t a d v (removeCommentsList cs) :: removeCommentsList rest
  | n :: rest => n :: removeCommentsList rest

/-- Step 7, `_removeHiddenElements` (no has-id guard here): hidden
attribute, aria-hidden, presentational role, or hidden computed style
removes the element with its whole subtree. -/
def isHiddenElem (a : List (String × String)) (d v : Bool) : Bool :=
  hasAttrB a "hidden" ||
  getAttr a "aria-hidden" == some "true" ||
  (match getAttr a "role" with
   | some r => r == "presentation" || r == "none"
   | none => false) ||
  d || v

def removeHiddenList : List Node → List Node
  | [] => []
  | Node.elem t a d v cs :: rest =>
    if isHiddenElem a d v then removeHiddenList rest
    else Node.elem t a d v (removeHiddenList cs) :: removeHiddenList rest
  | n :: rest => n :: removeHiddenList rest

/-- Step 8, `_pruneEmptyNodes`: the source walks the snapshot in reverse
document order, so children are settled before their parent is tested;
bottom-up recursion is the same transformation. -/
def isElemNode : Node → Bool
  | Node.elem _ _ _ _ _ => true
  | _ => false

def isRealTextNode : Node → Bool
  | Node.text s => jsTrim s ≠ ""
  | _ => false

def hasElemChild (cs : List Node) : Bool := cs.any isElemNode

def hasTextChild (cs : List Node) : Bool := cs.any isRealTextNode

def pruneList : List Node → List Node
  | [] => []
  | Node.elem t a d v cs :: rest =>
    let cs2 := pruneList cs
    if hasAttrB a "id" || controlTags.contains t ||
       (t == "a" && hasAttrB a "href") ||
       hasTextChild cs2 || hasElemChild cs2 then
      Node.elem t a d v cs2 :: pruneList rest
    else pruneList rest
  | n :: rest => n :: pruneList rest

/-- Step 9, `_collapseSingleChildWrappers`: in the same reverse document
order, a wrapper without id, not a control tag, whose single child node
is an element is replaced by that child. -/
def collapseStep : Node → Node
  | Node.elem t a d v cs =>
    if hasAttrB a "id" || controlTags.contains t then Node.elem t a d v cs
    else
      match cs with
      | [c] => if isElemNode c then c else Node.elem t a d v [c]
      | _ => Node.elem t a d v cs
  | n => n

def collapseList : List Node → List Node
  | [] => []
  | Node.elem t a d v cs :: rest =>
    collapseStep (Node.elem t a d v (collapseList cs)) :: collapseList rest
  | n :: rest => n :: collapseList rest

/-- Apply a forest transformation to the children of the root only (the
`querySelectorAll` walks of the source never include the clone root). -/
def onChildren (f : List Node → List Node) : Node → Node
  | Node.elem t a d v cs => Node.elem t a d v (f cs)
  | n => n

def assignClone : Node → Node :=
  onChildren (fun cs => (assignList 1 cs).1)

/-- Steps 2-9 of `refresh()` on the cloned document (step 10 only
normalizes whitespace in the serialized text and does not change the
tree). -/
def finalClone (doc : Node) : Node :=
  onChildren collapseList
    (onChildren pruneList
      (onChildren removeHiddenList
        (onChildren removeCommentsList
          (onChildren blankList
            (assignClone (onChildren stripList doc))))))

/-- Paths of the interactive elements found in the stripped clone
(`clone.querySelectorAll` searches descendants of the root only) — the
`clonedInteractiveEls` of `_assignElementIds`. -/
def cloneMatchPaths (doc : Node) : List (List Nat) :=
  match doc with
  | Node.elem _ _ _ _ cs => matchPathsList [] 0 (stripList cs)
  | _ => []

def cloneMatchCount (doc : Node) : Nat := (cloneMatchPaths doc).length

/-- `mapping.push(\x7b id: i+1, el: originalInteractiveEls[i] \x7d)` for each
cloned interactive element, counting from `ctr`. -/
def mappingFrom (origs : List (List Nat)) (ctr : Nat) : Nat → List (Nat × Option (List Nat))
  | 0 => []
  | n + 1 => (ctr + 1, origs.get? ctr) :: mappingFrom origs (ctr + 1) n

/-- The id→element mapping produced by `refresh()` on `doc`. -/
def refreshMapping (doc : Node) : List (Nat × Option (List Nat)) :=
  mappingFrom (docMatchesAll doc) 0 (cloneMatchCount doc)

/-- `getElementById(id)`: `mapping.find(m => m.id === id)`, element or
null (an undefined `el` field also yields no element). -/
def getElementById (mapping : List (Nat × Option (List Nat))) (id : Nat) :
    Option (List Nat) :=
  match mapping.find? (fun m => m.1 == id) with
  | some m => m.2
  | none => none

/-- id attribute values present on a forest, in document order. -/
def idsList : List Node → List String
  | [] => []
  | Node.elem _ a _ _ cs :: rest =>
    (match getAttr a "id" with
     | some iv => [iv]
     | none => []) ++ idsList cs ++ idsList rest
  | _ :: rest => idsList rest

/-- id attributes on non-root elements of a tree (the ids the pipeline
itself manages; the root's own attributes are never stripped). -/
def descIds (n : Node) : List String :=
  match n with
  | Node.elem _ _ _ _ cs => idsList cs
  | _ => []

/-! ### Derived quantities used to state the executor theorems -/

/-- A model response whose batch executes without terminal effect: it
requests at least one tool call, every argument string parses, and no
dispatched call produces the parsed COMMAND_COMPLETE sentinel. -/
def goodMsg (env : ExecEnv) (m : ModelResponse) : Prop :=
  m.tool_calls ≠ [] ∧
  ∀ tc ∈ m.tool_calls,
    (env.parse tc.arguments).isSome = true ∧ callFinalizes env tc = false

/-- Token total a response contributes to the cumulative counter. -/
def respTotal (m : ModelResponse) : Nat :=
  match m.usage with
  | some u => (usageDelta u).total
  | none => 0

/-- Cumulative token total of `n` consecutive responses starting at
index `r`. -/
def partSum (responses : Nat → ModelResponse) (r : Nat) : Nat → Nat
  | 0 => 0
  | n + 1 => respTotal (responses r) + partSum responses (r + 1) n

/-! ### Concrete fixtures for counterexamples and witnesses -/

/-- A parse function behaving like `JSON.parse` on the few strings the
fixtures use. -/
def envStd : ExecEnv :=
  { parse := fun s =>
      if s == "\x7b\x7d" then some (Json.obj [])
      else if s == "[1]" then some (Json.arr [Json.num 1])
      else none
    parseErrMsg := fun _ => "Unexpected token in JSON"
    pageTool := fun _ _ => "ok" }

def callGoBack : ToolCallMsg := ⟨"call_a", "GoBack", "\x7b\x7d"⟩

def callBadArgs : ToolCallMsg := ⟨"call_b", "ClickElement", "not json"⟩

def callClick : ToolCallMsg := ⟨"call_c", "ClickElement", "\x7b\x7d"⟩

/-- A response that always requests one more tool call. -/
def respLoop : ModelResponse :=
  { usage := none, content := some "partial answer", tool_calls := [callGoBack] }

/-- A batch with a malformed first argument string and a well-formed
second call. -/
def respBadBatch : ModelResponse :=
  { usage := none, content := some "", tool_calls := [callBadArgs, callClick] }

/-- A two-call batch used for the stop-mid-batch scenarios. -/
def respTwoCalls : ModelResponse :=
  { usage := none, content := some "", tool_calls := [callGoBack, callClick] }

def mkResult (cmd : String) (s : Status) (d : Json) : CommandResult :=
  { command := cmd, status := s, error := none, data := d,
    commandHistory := [], tokenUsage := TokenUsage.zero }

def recExecuting : CommandRecord :=
  { command := "c", status := Status.executing, toolCalls := [],
    toolResults := [], responses := [], tokenUsage := TokenUsage.zero,
    error := none }

/-- Queue state holding one `retrying` entry with scalar data. -/
def stRetryScalar : QueueState :=
  { initialQueueState with
      commandResults := [mkResult "c" Status.retrying (Json.num 1)] }

/-- Queue state holding one `retrying` entry with array data. -/
def stRetryArr : QueueState :=
  { initialQueueState with
      commandResults := [mkResult "c" Status.retrying (Json.arr [Json.num 1])] }

/-- Queue state with paused and stop flags raised and a nonzero
per-command counter. -/
def stFlagsSet : QueueState :=
  { initialQueueState with
      isPaused := true
      shouldStopCurrent := true
      currentTokenUsage := ⟨3, 4, 7⟩ }

/-- Queue state whose per-command token total already equals 10. -/
def stAtBudget : QueueState :=
  { initialQueueState with currentTokenUsage := ⟨5, 5, 10⟩ }

/-- Document with an element interactive only through its onclick
attribute, followed by a button. -/
def exDocAttr : Node :=
  Node.elem "html" [] false false
    [Node.elem "body" [] false false
      [Node.elem "div" [("onclick", "go()")] false false [Node.text "hi"],
       Node.elem "button" [] false false [Node.text "ok"]]]

/-- Document whose root `<html>` carries a pre-existing id attribute. -/
def exDocRootId : Node :=
  Node.elem "html" [("id", "2")] false false
    [Node.elem "body" [] false false
      [Node.elem "button" [] false false [Node.text "x"]]]

/-- Forest holding an element with id "7" inside an empty wrapper chain,
used to exercise the prune/collapse guards. -/
def exForestId7 : List Node :=
  [Node.elem "div" [] false false
    [Node.elem "span" [("id", "7")] false false []]]

/-! ## Helper lemmas -/

theorem updateAt_length (f : CommandResult → CommandResult) (i : Nat)
    (l : List CommandResult) : (updateAt i f l).length = l.length := by
  induction l generalizing i with
  | nil => simp [updateAt]
  | cons x xs ih =>
    cases i with
    | zero => simp [updateAt]
    | succ n => simp [updateAt, ih]

theorem updateAt_get (f : CommandResult → CommandResult) (i : Nat)
    (l : List CommandResult) (x : CommandResult) (h : l.get? i = some x) :
    (updateAt i f l).get? i = some (f x) := by
  induction l generalizing i with
  | nil => simp at h
  | cons y ys ih =>
    cases i with
    | zero =>
      simp only [List.get?] at h
      cases h
      rfl
    | succ n =>
      simp only [List.get?] at h
      show (y :: updateAt n f ys).get? (n + 1) = some (f x)
      simp only [List.get?]
      exact ih n h

theorem addCommandResult_shouldStop (st : QueueState) (r : CommandResult) :
    (addCommandResult st r).shouldStopCurrent = st.shouldStopCurrent := by
  unfold addCommandResult
  cases st.commandResults.findIdx? (isRetryingMatch r.command) <;> rfl

theorem addCommandResult_curTok (st : QueueState) (r : CommandResult) :
    (addCommandResult st r).currentTokenUsage = st.currentTokenUsage := by
  unfold addCommandResult
  cases st.commandResults.findIdx? (isRetryingMatch r.command) <;> rfl

theorem stoppedOutcome_fields (cmd : String) (hist0 : List CommandRecord)
    (st : QueueState) (rec : CommandRecord) :
    (stoppedOutcome cmd hist0 st rec).2.status = Status.stopped ∧
    (stoppedOutcome cmd hist0 st rec).2.error = some stopErrorMsg ∧
    (stoppedOutcome cmd hist0 st rec).2.toolResults = rec.toolResults ∧
    (stoppedOutcome cmd hist0 st rec).1.shouldStopCurrent = false := by
  refine ⟨rfl, rfl, rfl, ?_⟩
  show (addCommandResult { st with shouldStopCurrent := false } _).shouldStopCurrent = false
  rw [addCommandResult_shouldStop]

theorem failedOutcome_fields (cmd : String) (hist0 : List CommandRecord)
    (msg : String) (st : QueueState) (rec : CommandRecord) :
    (failedOutcome cmd hist0 msg st rec).2.status = Status.failed ∧
    (failedOutcome cmd hist0 msg st rec).2.error = some msg ∧
    (failedOutcome cmd hist0 msg st rec).1.currentTokenUsage = st.currentTokenUsage := by
  refine ⟨rfl, rfl, ?_⟩
  exact addCommandResult_curTok _ _

theorem listHasPre_append (p s : List Char) : listHasPre (p ++ s) p = true := by
  induction p with
  | nil => rfl
  | cons c cs ih =>
    unfold listHasPre at ih ⊢
    simp [listPreAux, ih]

theorem listHasSub_of_pre (s pat : List Char) (h : listHasPre s pat = true) :
    listHasSub s pat = true := by
  cases s with
  | nil =>
    cases pat with
    | nil => rfl
    | cons b bs => simp [listHasPre, listPreAux] at h
  | cons a as =>
    simp only [listHasSub, h, Bool.true_or]

theorem strHasSub_left (p s : String) : strHasSub (p ++ s) p = true := by
  unfold strHasSub
  rw [String.data_append]
  exact listHasSub_of_pre _ _ (listHasPre_append _ _)

theorem applyUsage_state (m : ModelResponse) (st : QueueState)
    (rec : CommandRecord) :
    (applyUsage m st rec).1.shouldStopCurrent = st.shouldStopCurrent ∧
    (applyUsage m st rec).1.currentTokenUsage.total =
      st.currentTokenUsage.total + respTotal m ∧
    (applyUsage m st rec).2.error = rec.error ∧
    (applyUsage m st rec).2.status = rec.status ∧
    (applyUsage m st rec).2.toolResults = rec.toolResults := by
  cases hm : m.usage with
  | none => simp [applyUsage, respTotal, hm]
  | some u => simp [applyUsage, respTotal, hm, TokenUsage.add]

theorem recordToolCalls_ok (env : ExecEnv) (calls : List ToolCallMsg) :
    ∀ rec : CommandRecord,
      (∀ tc ∈ calls, (env.parse tc.arguments).isSome = true) →
      ∃ evs, recordToolCalls env calls rec =
        Except.ok { rec with toolCalls := rec.toolCalls ++ evs } := by
  induction calls with
  | nil =>
    intro rec _
    exact ⟨[], by simp [recordToolCalls]⟩
  | cons tc rest ih =>
    intro rec h
    obtain ⟨args, hargs⟩ :=
      Option.isSome_iff_exists.mp (h tc (List.mem_cons_self _ _))
    obtain ⟨evs, hevs⟩ :=
      ih { rec with toolCalls := rec.toolCalls ++ [⟨tc.name, args, tc.id⟩] }
        (fun c hc => h c (List.mem_cons_of_mem _ hc))
    refine ⟨⟨tc.name, args, tc.id⟩ :: evs, ?_⟩
    simp only [recordToolCalls, hargs]
    rw [hevs]
    simp

/-- One non-terminal dispatch step: stop flag unread, call does not
finalize — the call's textual content is appended and dispatch moves on. -/
theorem dispatchCalls_cons_clean (env : ExecEnv) (cmd : String)
    (hist0 : List CommandRecord) (ext : Nat → Bool) (tc : ToolCallMsg)
    (rest : List ToolCallMsg) (st : QueueState) (rec : CommandRecord)
    (poll : Nat) (hflag : st.shouldStopCurrent = false)
    (hext : ext poll = false) (hfin : callFinalizes env tc = false) :
    dispatchCalls env cmd hist0 ext (tc :: rest) st rec poll =
      dispatchCalls env cmd hist0 ext rest st
        { rec with toolResults :=
            rec.toolResults ++ [⟨tc.id, callContent env tc⟩] } (poll + 1) := by
  have hcond : (st.shouldStopCurrent || ext poll) = false := by
    simp [hflag, hext]
  conv_lhs => rw [dispatchCalls]
  rw [if_neg (by simp [hcond])]
  cases hp : env.parse tc.arguments with
  | none =>
    dsimp only
    simp only [callContent, hp]
  | some args =>
    dsimp only
    cases hk : knownTool tc.name with
    | false =>
      simp only [callContent, hp, hk, Bool.false_eq_true, if_false]
    | true =>
      simp only [hk, if_true]
      cases hs : strHasSub (runToolImpl env tc.name args) "COMMAND_COMPLETE" with
      | false =>
        simp only [hs, Bool.false_eq_true, if_false, callContent, hp, hk, if_true]
      | true =>
        simp only [hs, if_true]
        have hpr : env.parse (runToolImpl env tc.name args) = none := by
          unfold callFinalizes at hfin
          rw [hp] at hfin
          simp only [hk, if_true, hs, Bool.true_and] at hfin
          exact Option.not_isSome_iff_eq_none.mp (by simp [hfin])
        simp only [hpr]
        simp only [callContent, hp, hk, if_true]

/-- A whole batch with no stop request and no finalizing call: all
results are appended and the poll counter advances by the batch size. -/
theorem dispatchCalls_clean (env : ExecEnv) (cmd : String)
    (hist0 : List CommandRecord) (ext : Nat → Bool) (calls : List ToolCallMsg) :
    ∀ (st : QueueState) (rec : CommandRecord) (poll : Nat),
      st.shouldStopCurrent = false →
      (∀ k, poll ≤ k → k < poll + calls.length → ext k = false) →
      (∀ tc ∈ calls, callFinalizes env tc = false) →
      dispatchCalls env cmd hist0 ext calls st rec poll =
        BatchOut.more st
          { rec with toolResults := rec.toolResults ++
              calls.map (fun tc => ⟨tc.id, callContent env tc⟩) }
          (poll + calls.length) := by
  induction calls with
  | nil =>
    intro st rec poll _ _ _
    simp [dispatchCalls]
  | cons tc rest ih =>
    intro st rec poll hflag hext hfin
    rw [dispatchCalls_cons_clean env cmd hist0 ext tc rest st rec poll hflag
          (hext poll le_rfl (by simp)) (hfin tc (List.mem_cons_self _ _))]
    rw [ih st _ (poll + 1) hflag
          (fun k h1 h2 => hext k (by omega) (by simp only [List.length_cons]; omega))
          (fun c hc => hfin c (List.mem_cons_of_mem _ hc))]
    congr 1
    · simp
    · simp only [List.length_cons]
      omega

/-- A batch whose per-call poll at offset `pre.length` observes the stop
flag: the first `pre.length` calls run and record, the remainder is
abandoned with the stopped outcome. -/
theorem dispatchCalls_stops (env : ExecEnv) (cmd : String)
    (hist0 : List CommandRecord) (ext : Nat → Bool) (pre : List ToolCallMsg) :
    ∀ (tc : ToolCallMsg) (post : List ToolCallMsg) (st : QueueState)
      (rec : CommandRecord) (poll : Nat),
      st.shouldStopCurrent = false →
      (∀ k, poll ≤ k → k < poll + pre.length → ext k = false) →
      (∀ c ∈ pre, callFinalizes env c = false) →
      ext (poll + pre.length) = true →
      dispatchCalls env cmd hist0 ext (pre ++ tc :: post) st rec poll =
        BatchOut.halt
          (stoppedOutcome cmd hist0 st
            { rec with toolResults := rec.toolResults ++
                pre.map (fun c => ⟨c.id, callContent env c⟩) }).1
          (stoppedOutcome cmd hist0 st
            { rec with toolResults := rec.toolResults ++
                pre.map (fun c => ⟨c.id, callContent env c⟩) }).2 := by
  induction pre with
  | nil =>
    intro tc post st rec poll hflag _ _ hhit
    have hcond : (st.shouldStopCurrent || ext poll) = true := by
      rw [hflag]
      simpa using hhit
    show dispatchCalls env cmd hist0 ext (tc :: post) st rec poll = _
    unfold dispatchCalls
    rw [if_pos (by simp [hcond])]
    simp
  | cons c pre' ih =>
    intro tc post st rec poll hflag hlow hfin hhit
    show dispatchCalls env cmd hist0 ext (c :: (pre' ++ tc :: post)) st rec poll = _
    rw [dispatchCalls_cons_clean env cmd hist0 ext c _ st rec poll hflag
          (hlow poll le_rfl (by simp)) (hfin c (List.mem_cons_self _ _))]
    rw [ih tc post st _ (poll + 1) hflag
          (fun k h1 h2 => hlow k (by omega) (by simp only [List.length_cons]; omega))
          (fun d hd => hfin d (List.mem_cons_of_mem _ hd))
          (by
            have : poll + 1 + pre'.length = poll + (c :: pre').length := by
              simp only [List.length_cons]; omega
            rw [this]; exact hhit)]
    simp [List.append_assoc]

theorem execLoop_zero_fields (env : ExecEnv) (cmd : String) (maxTokens : Nat)
    (responses : Nat → ModelResponse) (ext : Nat → Bool)
    (hist0 : List CommandRecord) (msg : ModelResponse) (round poll : Nat)
    (st : QueueState) (rec : CommandRecord) :
    (execLoop env cmd maxTokens responses ext hist0 0 msg round poll st rec).2.status =
      Status.completed ∧
    (execLoop env cmd maxTokens responses ext hist0 0 msg round poll st rec).2.error =
      rec.error := by
  show (finishCompleted cmd hist0 msg st rec).2.status = Status.completed ∧
    (finishCompleted cmd hist0 msg st rec).2.error = rec.error
  unfold finishCompleted
  dsimp only
  constructor
  · rfl
  · split <;> rfl

theorem execLoop_succ_eq (env : ExecEnv) (cmd : String) (maxTokens : Nat)
    (responses : Nat → ModelResponse) (ext : Nat → Bool)
    (hist0 : List CommandRecord) (fuel round poll : Nat) (st : QueueState)
    (rec : CommandRecord) (tc : ToolCallMsg) (rest : List ToolCallMsg)
    (msg : ModelResponse) (hc : msg.tool_calls = tc :: rest) :
    execLoop env cmd maxTokens responses ext hist0 (fuel + 1) msg round poll st rec =
      if st.shouldStopCurrent || ext poll then
        stoppedOutcome cmd hist0 st rec
      else if maxTokens ≤ st.currentTokenUsage.total then
        failedOutcome cmd hist0
          (tokenLimitMsg maxTokens st.currentTokenUsage.total) st rec
      else
        match recordToolCalls env (tc :: rest) rec with
        | Except.error m => failedOutcome cmd hist0 m st rec
        | Except.ok rec1 =>
          match dispatchCalls env cmd hist0 ext (tc :: rest) st rec1 (poll + 1) with
          | BatchOut.halt st2 rec2 => (st2, rec2)
          | BatchOut.more st2 rec2 poll2 =>
            execLoop env cmd maxTokens responses ext hist0 fuel
              (responses round) (round + 1) poll2
              (applyUsage (responses round) st2 rec2).1
              (applyUsage (responses round) st2 rec2).2 := by
  cases msg with
  | mk usage content tcs =>
    dsimp only at hc
    subst hc
    rfl

/-- Under a stream of non-finalizing tool-call responses, no stop
request and enough token headroom, the loop spends all its fuel and ends
in the completed fallback. -/
theorem execLoop_cap_completed (env : ExecEnv) (cmd : String) (maxTokens : Nat)
    (responses : Nat → ModelResponse) (ext : Nat → Bool)
    (hist0 : List CommandRecord) (fuel : Nat) :
    ∀ (msg : ModelResponse) (round poll : Nat) (st : QueueState)
      (rec : CommandRecord),
      st.shouldStopCurrent = false →
      goodMsg env msg →
      (∀ k, goodMsg env (responses k)) →
      (∀ n, ext n = false) →
      (∀ i, i < fuel →
        st.currentTokenUsage.total + partSum responses round i < maxTokens) →
      (execLoop env cmd maxTokens responses ext hist0 fuel msg round poll st rec).2.status =
        Status.completed ∧
      (execLoop env cmd maxTokens responses ext hist0 fuel msg round poll st rec).2.error =
        rec.error := by
  induction fuel with
  | zero =>
    intro msg round poll st rec _ _ _ _ _
    exact execLoop_zero_fields env cmd maxTokens responses ext hist0 msg round poll st rec
  | succ fuel ih =>
    intro msg round poll st rec hflag hmsg hall hext htok
    obtain ⟨hne, hcalls⟩ := hmsg
    cases hc : msg.tool_calls with
    | nil => exact absurd hc hne
    | cons tc rest =>
      rw [execLoop_succ_eq env cmd maxTokens responses ext hist0 fuel round poll
            st rec tc rest msg hc]
      rw [if_neg (by simp [hflag, hext poll])]
      have htok0 : ¬ maxTokens ≤ st.currentTokenUsage.total := by
        have h0 := htok 0 (Nat.succ_pos _)
        simp only [partSum, Nat.add_zero] at h0
        omega
      rw [if_neg htok0]
      rw [hc] at hcalls
      obtain ⟨evs, hevs⟩ :=
        recordToolCalls_ok env (tc :: rest) rec (fun c hcm => (hcalls c hcm).1)
      rw [hevs]
      dsimp only
      rw [dispatchCalls_clean env cmd hist0 ext (tc :: rest) st _ (poll + 1)
            hflag (fun k _ _ => hext k) (fun c hcm => (hcalls c hcm).2)]
      dsimp only
      have happ := applyUsage_state (responses round) st
        { rec with
            toolCalls := rec.toolCalls ++ evs
            toolResults := rec.toolResults ++
              (tc :: rest).map (fun c => ⟨c.id, callContent env c⟩) }
      obtain ⟨hfl3, htot3, herr3, -, -⟩ := happ
      have hrec :=
        ih (responses round) (round + 1) (poll + 1 + (tc :: rest).length)
          (applyUsage (responses round) st
            { rec with
                toolCalls := rec.toolCalls ++ evs
                toolResults := rec.toolResults ++
                  (tc :: rest).map (fun c => ⟨c.id, callContent env c⟩) }).1
          (applyUsage (responses round) st
            { rec with
                toolCalls := rec.toolCalls ++ evs
                toolResults := rec.toolResults ++
                  (tc :: rest).map (fun c => ⟨c.id, callContent env c⟩) }).2
          (by rw [hfl3]; exact hflag) (hall round) hall hext
          (by
            intro i hi
            rw [htot3]
            have hstep := htok (i + 1) (Nat.succ_lt_succ hi)
            simp only [partSum] at hstep
            omega)
      refine ⟨hrec.1, ?_⟩
      rw [hrec.2, herr3]

/-- The token-limit failure message mentions the token limit. -/
theorem tokenMsg_mentions (m t : Nat) :
    strHasSub (tokenLimitMsg m t) "Token limit reached" = true := by
  unfold strHasSub tokenLimitMsg
  apply listHasSub_of_pre
  simp only [String.data_append]
  rw [show (['T', 'o', 'k', 'e', 'n', ' ', 'l', 'i', 'm', 'i', 't', ' ',
             'r', 'e', 'a', 'c', 'h', 'e', 'd', ' ', '('] : List Char) =
        ['T', 'o', 'k', 'e', 'n', ' ', 'l', 'i', 'm', 'i', 't', ' ',
         'r', 'e', 'a', 'c', 'h', 'e', 'd'] ++ [' ', '('] from rfl]
  simp only [List.append_assoc]
  exact listHasPre_append _ _

/-! ## Claims -/

/-- C10: `retryCommand` with an out-of-bounds index, or aimed at a result
whose status is neither failed nor stopped, is a complete no-op: the
queue state is returned unchanged and the execute function is never
invoked. -/
theorem C10_retry_guard (st : QueueState) (idx : Int)
    (h : idx < 0 ∨ (st.commandResults.length : Int) ≤ idx ∨
         (∃ r, st.commandResults.get? idx.toNat = some r ∧
            r.status ≠ Status.failed ∧ r.status ≠ Status.stopped)) :
    retryCommand st idx = (st, false) := by
  unfold retryCommand
  rcases h with h | h | ⟨r, hr, h1, h2⟩
  · rw [if_pos]
    exact Or.inl h
  · rw [if_pos]
    exact Or.inr h
  · by_cases hb : idx < 0 ∨ (st.commandResults.length : Int) ≤ idx
    · rw [if_pos hb]
    · rw [if_neg hb, hr]
      simp only []
      rw [if_pos ⟨h1, h2⟩]

theorem C10_retry_guard_witness :
    retryCommand initialQueueState 0 = (initialQueueState, false) :=
  C10_retry_guard initialQueueState 0 (Or.inr (Or.inl (by decide)))

/-- C7 (corrected): `startCommandQueue` parses the input into trimmed
non-empty lines, no-ops when none exists, and otherwise resets the
command list, the index, the results, the processing flag and the
session token counter before invoking the processor — but it leaves the
per-command token counter and the paused and stop-request flags exactly
as they were. -/
theorem C7_start_behaviour (text : String) (st : QueueState) :
    ((jsTrim text = "" ∨ parseCommands text = []) →
       startCommandQueue text st = (st, false)) ∧
    (jsTrim text ≠ "" → parseCommands text ≠ [] →
       startCommandQueue text st =
         ({ st with
             currentCommands := parseCommands text
             currentCommandIndex := 0
             commandResults := []
             isProcessingCommands := true
             totalTokenUsage := TokenUsage.zero }, true)) := by
  constructor
  · intro h
    unfold startCommandQueue
    by_cases ht : jsTrim text = ""
    · rw [if_pos ht]
    · rw [if_neg ht]
      rcases h with h | h
      · exact absurd h ht
      · simp [h]
  · intro ht hp
    unfold startCommandQueue
    rw [if_neg ht]
    simp only []
    rw [if_neg (by simpa [List.length_eq_zero] using hp)]

theorem C7_start_witness :
    startCommandQueue "x\n \ny" initialQueueState =
      ({ initialQueueState with
          currentCommands := parseCommands "x\n \ny"
          currentCommandIndex := 0
          commandResults := []
          isProcessingCommands := true
          totalTokenUsage := TokenUsage.zero }, true) :=
  (C7_start_behaviour "x\n \ny" initialQueueState).2 (by decide) (by decide)

/-- C7 counterexample: starting a queue from a state with the paused and
stop flags raised and a nonzero per-command counter begins processing
without resetting any of them, contradicting the claim that `start`
resets both token counters and the paused and stop-request flags. -/
theorem C7_counterexample :
    (startCommandQueue "a" stFlagsSet).2 = true ∧
    (startCommandQueue "a" stFlagsSet).1.isPaused = true ∧
    (startCommandQueue "a" stFlagsSet).1.shouldStopCurrent = true ∧
    (startCommandQueue "a" stFlagsSet).1.currentTokenUsage = ⟨3, 4, 7⟩ := by
  refine ⟨rfl, rfl, rfl, rfl⟩

/-- C4 (corrected): when a retried command's outcome carries non-null
data and is recorded against the existing `retrying` entry, the entry is
merged in place (no new entry, index untouched): two arrays concatenate
original-then-retry, an array absorbs the non-array value on the
matching side, two non-arrays become the pair array, token counters add
componentwise, histories concatenate and status/error take the retry's
outcome. -/
theorem C4_retry_merge (st : QueueState) (r : CommandResult) (i : Nat)
    (old : CommandResult)
    (hfind : st.commandResults.findIdx? (isRetryingMatch r.command) = some i)
    (hget : st.commandResults.get? i = some old)
    (hold : old.data.isNull = false) (hnew : r.data.isNull = false) :
    (addCommandResult st r).commandResults.get? i = some (mergeResult old r) ∧
    (addCommandResult st r).commandResults.length = st.commandResults.length ∧
    (addCommandResult st r).currentCommandIndex = st.currentCommandIndex ∧
    (mergeResult old r).data = mergeData old.data r.data ∧
    (mergeResult old r).status = r.status ∧
    (mergeResult old r).error = r.error ∧
    (mergeResult old r).commandHistory = old.commandHistory ++ r.commandHistory ∧
    (mergeResult old r).tokenUsage = old.tokenUsage.add r.tokenUsage ∧
    (∀ xs ys, mergeData (Json.arr xs) (Json.arr ys) = Json.arr (xs ++ ys)) ∧
    (∀ xs d, d.isArray = false → mergeData (Json.arr xs) d = Json.arr (xs ++ [d])) ∧
    (∀ d ys, d.isArray = false → mergeData d (Json.arr ys) = Json.arr (d :: ys)) ∧
    (∀ d e, d.isArray = false → e.isArray = false →
       mergeData d e = Json.arr [d, e]) := by
  refine ⟨?_, ?_, ?_, ?_, rfl, rfl, rfl, rfl, ?_, ?_, ?_, ?_⟩
  · unfold addCommandResult
    rw [hfind]
    exact updateAt_get _ i _ old hget
  · unfold addCommandResult
    rw [hfind]
    exact updateAt_length _ i _
  · unfold addCommandResult
    rw [hfind]
  · simp only [mergeResult, hold, hnew, Bool.false_eq_true, if_false]
  · intro xs ys; rfl
  · intro xs d hd
    cases d with
    | null => rfl
    | bool b => rfl
    | num n => rfl
    | str s => rfl
    | arr ys => simp [Json.isArray] at hd
    | obj fs => rfl
  · intro d ys hd
    cases d with
    | null => rfl
    | bool b => rfl
    | num n => rfl
    | str s => rfl
    | arr xs => simp [Json.isArray] at hd
    | obj fs => rfl
  · intro d e hd he
    cases d with
    | arr xs => simp [Json.isArray] at hd
    | null => cases e with
      | arr ys => simp [Json.isArray] at he
      | null => rfl
      | bool b => rfl
      | num n => rfl
      | str s => rfl
      | obj fs => rfl
    | bool b => cases e with
      | arr ys => simp [Json.isArray] at he
      | null => rfl
      | bool c => rfl
      | num n => rfl
      | str s => rfl
      | obj fs => rfl
    | num n => cases e with
      | arr ys => simp [Json.isArray] at he
      | null => rfl
      | bool c => rfl
      | num m => rfl
      | str s => rfl
      | obj fs => rfl
    | str s => cases e with
      | arr ys => simp [Json.isArray] at he
      | null => rfl
      | bool c => rfl
      | num m => rfl
      | str t => rfl
      | obj fs => rfl
    | obj fs => cases e with
      | arr ys => simp [Json.isArray] at he
      | null => rfl
      | bool c => rfl
      | num m => rfl
      | str t => rfl
      | obj gs => rfl

theorem C4_retry_merge_witness :
    (addCommandResult stRetryArr
        (mkResult "c" Status.completed (Json.arr [Json.num 2]))).commandResults.get? 0 =
      some (mergeResult (mkResult "c" Status.retrying (Json.arr [Json.num 1]))
              (mkResult "c" Status.completed (Json.arr [Json.num 2]))) :=
  (C4_retry_merge stRetryArr (mkResult "c" Status.completed (Json.arr [Json.num 2])) 0
      (mkResult "c" Status.retrying (Json.arr [Json.num 1]))
      rfl rfl rfl rfl).1

/-- C4 counterexample: merging a retry whose data is null into a
`retrying` entry with scalar data 1 leaves the data as 1 — not the
2-element array `[1, null]` the claim's neither-is-an-array case
predicts. -/
theorem C4_counterexample :
    ((addCommandResult stRetryScalar
        (mkResult "c" Status.completed Json.null)).commandResults.map
          CommandResult.data = [Json.num 1]) ∧
    Json.num 1 ≠ Json.arr [Json.num 1, Json.null] := by
  refine ⟨rfl, fun h => Json.noConfusion h⟩

/-- C6: the Done tool validates its data argument: null/undefined data
yields an error string that never matches the completion sentinel (so the
loop does not finalize on it), an empty array warns but still completes
normally, string data that parses as JSON is parsed into the sentinel,
and any other data is wrapped unchanged. -/
theorem C6_done_validation (p : String → Option Json) :
    (doneImpl p none = doneNullError ∧
     doneImpl p (some Json.null) = doneNullError ∧
     strHasSub doneNullError "COMMAND_COMPLETE" = false) ∧
    (doneWarnsEmptyArray (some (Json.arr [])) = true ∧
     doneImpl p (some (Json.arr [])) = mkCompletionSentinel (Json.arr [])) ∧
    (∀ s j, p s = some j →
       doneImpl p (some (Json.str s)) = mkCompletionSentinel j) ∧
    (∀ s, p s = none →
       doneImpl p (some (Json.str s)) = mkCompletionSentinel (Json.str s)) ∧
    (∀ d, d.isNull = false → (∀ s, d ≠ Json.str s) →
       doneImpl p (some d) = mkCompletionSentinel d) := by
  refine ⟨⟨rfl, rfl, by decide⟩, ⟨rfl, rfl⟩, ?_, ?_, ?_⟩
  · intro s j h
    simp [doneImpl, h]
  · intro s h
    simp [doneImpl, h]
  · intro d hnull hstr
    cases d with
    | null => simp [Json.isNull] at hnull
    | str s => exact absurd rfl (hstr s)
    | bool b => rfl
    | num n => rfl
    | arr xs => rfl
    | obj fs => rfl

theorem C6_done_witness :
    doneImpl envStd.parse (some (Json.str "[1]")) =
      mkCompletionSentinel (Json.arr [Json.num 1]) :=
  (C6_done_validation envStd.parse).2.2.1 "[1]" (Json.arr [Json.num 1]) rfl

/-- C2 (code_bug): a batch in which only the first call's argument
string is malformed.  The recording loop parses every argument string
outside any per-call try/catch, so the whole attempt fails with the
parse error: no tool result is recorded, the well-formed second call is
never dispatched, and the queue records a single failed result with
null data — contradicting the per-call-failure contract. -/
theorem C2_malformed_arg_fails_batch :
    (executeCommand envStd "cmd" true 50 150000 (fun _ => respBadBatch)
        (fun _ => false) [] initialQueueState).2.status = Status.failed ∧
    (executeCommand envStd "cmd" true 50 150000 (fun _ => respBadBatch)
        (fun _ => false) [] initialQueueState).2.error =
      some "Unexpected token in JSON" ∧
    (executeCommand envStd "cmd" true 50 150000 (fun _ => respBadBatch)
        (fun _ => false) [] initialQueueState).2.toolResults = [] ∧
    (executeCommand envStd "cmd" true 50 150000 (fun _ => respBadBatch)
        (fun _ => false) [] initialQueueState).1.commandResults.map
        CommandResult.status = [Status.failed] ∧
    (executeCommand envStd "cmd" true 50 150000 (fun _ => respBadBatch)
        (fun _ => false) [] initialQueueState).1.commandResults.map
        CommandResult.data = [Json.null] := by
  refine ⟨rfl, rfl, rfl, rfl, rfl⟩

/-- C1 (amended): when every model response keeps requesting tool calls
(all parseable, none finalizing), no stop request arrives and the token
ceiling is never met, the attempt runs out of iteration budget and
terminates with status completed (best-effort content), never failed. -/
theorem C1_cap_completes (env : ExecEnv) (cmd : String)
    (maxToolCalls maxTokens : Nat) (responses : Nat → ModelResponse)
    (ext : Nat → Bool) (hist0 : List CommandRecord) (st0 : QueueState)
    (hflag : st0.shouldStopCurrent = false)
    (hall : ∀ k, goodMsg env (responses k))
    (hext : ∀ n, ext n = false)
    (htok : ∀ i, i < min maxToolCalls 50 →
      partSum responses 0 (i + 1) < maxTokens) :
    (executeCommand env cmd true maxToolCalls maxTokens responses ext hist0
        st0).2.status = Status.completed ∧
    (executeCommand env cmd true maxToolCalls maxTokens responses ext hist0
        st0).2.error = none ∧
    (executeCommand env cmd true maxToolCalls maxTokens responses ext hist0
        st0).2.status ≠ Status.failed := by
  unfold executeCommand
  rw [if_neg (by decide)]
  dsimp only
  have happ := applyUsage_state (responses 0)
    { st0 with currentTokenUsage := TokenUsage.zero }
    { command := cmd, status := Status.executing, toolCalls := [],
      toolResults := [], responses := [], tokenUsage := TokenUsage.zero,
      error := none }
  obtain ⟨hfl, htot, herr, -, -⟩ := happ
  have h := execLoop_cap_completed env cmd maxTokens responses ext hist0
    (min maxToolCalls 50) (responses 0) 1 0
    (applyUsage (responses 0) { st0 with currentTokenUsage := TokenUsage.zero }
      { command := cmd, status := Status.executing, toolCalls := [],
        toolResults := [], responses := [], tokenUsage := TokenUsage.zero,
        error := none }).1
    (applyUsage (responses 0) { st0 with currentTokenUsage := TokenUsage.zero }
      { command := cmd, status := Status.executing, toolCalls := [],
        toolResults := [], responses := [], tokenUsage := TokenUsage.zero,
        error := none }).2
    (by rw [hfl]; exact hflag) (hall 0) hall hext
    (by
      intro i hi
      rw [htot]
      have hstep := htok i hi
      simp only [partSum, Nat.zero_add] at hstep
      have hz : ({ st0 with currentTokenUsage := TokenUsage.zero } :
          QueueState).currentTokenUsage.total = 0 := rfl
      rw [hz]
      omega)
  refine ⟨h.1, ?_, ?_⟩
  · rw [h.2, herr]
  · rw [h.1]
    decide

theorem C1_cap_completes_witness :
    (executeCommand envStd "cmd" true 3 1000 (fun _ => respLoop)
        (fun _ => false) [] initialQueueState).2.status = Status.completed ∧
    (executeCommand envStd "cmd" true 3 1000 (fun _ => respLoop)
        (fun _ => false) [] initialQueueState).2.error = none ∧
    (executeCommand envStd "cmd" true 3 1000 (fun _ => respLoop)
        (fun _ => false) [] initialQueueState).2.status ≠ Status.failed :=
  C1_cap_completes envStd "cmd" 3 1000 (fun _ => respLoop) (fun _ => false)
    [] initialQueueState rfl
    (fun _ => (⟨by decide, by decide⟩ : goodMsg envStd respLoop))
    (fun _ => rfl)
    (by
      intro i hi
      rw [show min 3 50 = 3 from by decide] at hi
      interval_cases i <;> decide)

/-- C1 counterexample: with the cap at min(2, 50) = 2 and a model that
requests a tool call in every response, the attempt runs exactly two
iterations and then terminates with status completed — not failed as the
claim requires. -/
theorem C1_counterexample :
    (executeCommand envStd "cmd" true 2 150000 (fun _ => respLoop)
        (fun _ => false) [] initialQueueState).2.status = Status.completed ∧
    (executeCommand envStd "cmd" true 2 150000 (fun _ => respLoop)
        (fun _ => false) [] initialQueueState).2.status ≠ Status.failed ∧
    (executeCommand envStd "cmd" true 2 150000 (fun _ => respLoop)
        (fun _ => false) [] initialQueueState).2.toolResults.length = 2 := by
  refine ⟨rfl, by decide, rfl⟩

/-- C5: whenever the loop is about to run another iteration (fuel left,
tool calls pending), the stop poll reads false and the cumulative token
total already meets or exceeds the ceiling, the attempt fails right
there: status failed, an error mentioning the token limit, a null-data
failed result, and the token counter untouched (the check is
pre-emptive). -/
theorem C5_token_budget (env : ExecEnv) (cmd : String) (maxTokens : Nat)
    (responses : Nat → ModelResponse) (ext : Nat → Bool)
    (hist0 : List CommandRecord) (fuel round poll : Nat)
    (msg : ModelResponse) (st : QueueState) (rec : CommandRecord)
    (hne : msg.tool_calls ≠ [])
    (hflag : st.shouldStopCurrent = false)
    (hext : ext poll = false)
    (htok : maxTokens ≤ st.currentTokenUsage.total) :
    execLoop env cmd maxTokens responses ext hist0 (fuel + 1) msg round poll st rec =
      failedOutcome cmd hist0
        (tokenLimitMsg maxTokens st.currentTokenUsage.total) st rec ∧
    (execLoop env cmd maxTokens responses ext hist0 (fuel + 1) msg round poll st
        rec).2.status = Status.failed ∧
    (execLoop env cmd maxTokens responses ext hist0 (fuel + 1) msg round poll st
        rec).2.error =
      some (tokenLimitMsg maxTokens st.currentTokenUsage.total) ∧
    strHasSub (tokenLimitMsg maxTokens st.currentTokenUsage.total)
      "Token limit reached" = true ∧
    (failedCommandResult cmd
        (hist0 ++ [(execLoop env cmd maxTokens responses ext hist0 (fuel + 1) msg
          round poll st rec).2])
        (tokenLimitMsg maxTokens st.currentTokenUsage.total)
        st.currentTokenUsage).data = Json.null ∧
    (execLoop env cmd maxTokens responses ext hist0 (fuel + 1) msg round poll st
        rec).1.currentTokenUsage = st.currentTokenUsage := by
  cases hc : msg.tool_calls with
  | nil => exact absurd hc hne
  | cons tc rest =>
    have hstep : execLoop env cmd maxTokens responses ext hist0 (fuel + 1) msg
        round poll st rec =
        failedOutcome cmd hist0
          (tokenLimitMsg maxTokens st.currentTokenUsage.total) st rec := by
      rw [execLoop_succ_eq env cmd maxTokens responses ext hist0 fuel round poll
            st rec tc rest msg hc]
      rw [if_neg (by simp [hflag, hext])]
      rw [if_pos htok]
    refine ⟨hstep, ?_, ?_, tokenMsg_mentions _ _, rfl, ?_⟩
    · rw [hstep]
      exact (failedOutcome_fields _ _ _ _ _).1
    · rw [hstep]
      exact (failedOutcome_fields _ _ _ _ _).2.1
    · rw [hstep]
      exact (failedOutcome_fields _ _ _ _ _).2.2

theorem C5_token_budget_witness :
    execLoop envStd "c" 10 (fun _ => respLoop) (fun _ => false) [] (0 + 1)
      respLoop 1 0 stAtBudget recExecuting =
      failedOutcome "c" []
        (tokenLimitMsg 10 stAtBudget.currentTokenUsage.total) stAtBudget
        recExecuting :=
  (C5_token_budget envStd "c" 10 (fun _ => respLoop) (fun _ => false) [] 0 1 0
    respLoop stAtBudget recExecuting (by decide) rfl rfl (by decide)).1

/-- C3: a batch of K tool calls whose per-call poll for call j+1 (j < K)
is the first to observe the stop flag: the attempt ends Stopped with the
stop message, exactly the first j calls produced tool results (the rest
are never dispatched), and observing the flag clears it for the next
attempt. -/
theorem C3_stop_mid_batch (env : ExecEnv) (cmd : String)
    (maxToolCalls maxTokens : Nat) (responses : Nat → ModelResponse)
    (ext : Nat → Bool) (hist0 : List CommandRecord) (st0 : QueueState)
    (j : Nat)
    (hfuel : 0 < min maxToolCalls 50)
    (hflag : st0.shouldStopCurrent = false)
    (hj : j < (responses 0).tool_calls.length)
    (hparse : ∀ tc ∈ (responses 0).tool_calls,
      (env.parse tc.arguments).isSome = true)
    (hnofin : ∀ tc ∈ (responses 0).tool_calls.take j,
      callFinalizes env tc = false)
    (hextlow : ∀ k, k ≤ j → ext k = false)
    (hexthit : ext (j + 1) = true)
    (htok : respTotal (responses 0) < maxTokens) :
    (executeCommand env cmd true maxToolCalls maxTokens responses ext hist0
        st0).2.status = Status.stopped ∧
    (executeCommand env cmd true maxToolCalls maxTokens responses ext hist0
        st0).2.error = some stopErrorMsg ∧
    (executeCommand env cmd true maxToolCalls maxTokens responses ext hist0
        st0).2.toolResults =
      ((responses 0).tool_calls.take j).map
        (fun tc => ⟨tc.id, callContent env tc⟩) ∧
    (executeCommand env cmd true maxToolCalls maxTokens responses ext hist0
        st0).2.toolResults.length = j ∧
    (executeCommand env cmd true maxToolCalls maxTokens responses ext hist0
        st0).1.shouldStopCurrent = false := by
  have hlen : ((responses 0).tool_calls.take j).length = j := by
    rw [List.length_take]
    omega
  unfold executeCommand
  rw [if_neg (by decide)]
  dsimp only
  have happ := applyUsage_state (responses 0)
    { st0 with currentTokenUsage := TokenUsage.zero }
    { command := cmd, status := Status.executing, toolCalls := [],
      toolResults := [], responses := [], tokenUsage := TokenUsage.zero,
      error := none }
  obtain ⟨hfl, htot, -, -, htres⟩ := happ
  cases hm : min maxToolCalls 50 with
  | zero => omega
  | succ m =>
    cases hc : (responses 0).tool_calls with
    | nil => rw [hc] at hj; simp at hj
    | cons tc0 rest0 =>
      rw [execLoop_succ_eq env cmd maxTokens responses ext hist0 m 1 0 _ _
            tc0 rest0 (responses 0) hc]
      rw [if_neg (by
        rw [hfl, hflag, hextlow 0 (Nat.zero_le _)]
        simp)]
      rw [if_neg (by
        rw [htot]
        have hz : ({ st0 with currentTokenUsage := TokenUsage.zero } :
            QueueState).currentTokenUsage.total = 0 := rfl
        rw [hz]
        omega)]
      rw [hc] at hparse
      obtain ⟨evs, hevs⟩ := recordToolCalls_ok env (tc0 :: rest0) _
        (fun c hcm => hparse c hcm)
      rw [hevs]
      dsimp only
      have hce : tc0 :: rest0 = (responses 0).tool_calls.take j ++
          (responses 0).tool_calls.drop j := by
        rw [List.take_append_drop]
        exact hc.symm
      cases hd : (responses 0).tool_calls.drop j with
      | nil =>
        have := List.drop_eq_nil_iff.mp hd
        omega
      | cons tcj post =>
        rw [hd] at hce
        rw [hce]
        rw [dispatchCalls_stops env cmd hist0 ext ((responses 0).tool_calls.take j)
              tcj post _ _ (0 + 1)
              (by rw [hfl]; exact hflag)
              (by
                intro k h1 h2
                rw [hlen] at h2
                exact hextlow k (by omega))
              hnofin
              (by
                rw [hlen]
                have he : 0 + 1 + j = j + 1 := by omega
                rw [he]
                exact hexthit)]
        dsimp only
        obtain ⟨hs1, hs2, hs3, hs4⟩ := stoppedOutcome_fields cmd hist0
          (applyUsage (responses 0)
            { st0 with currentTokenUsage := TokenUsage.zero }
            { command := cmd, status := Status.executing, toolCalls := [],
              toolResults := [], responses := [], tokenUsage := TokenUsage.zero,
              error := none }).1
          { (applyUsage (responses 0)
              { st0 with currentTokenUsage := TokenUsage.zero }
              { command := cmd, status := Status.executing, toolCalls := [],
                toolResults := [], responses := [], tokenUsage := TokenUsage.zero,
                error := none }).2 with
            toolCalls := (applyUsage (responses 0)
              { st0 with currentTokenUsage := TokenUsage.zero }
              { command := cmd, status := Status.executing, toolCalls := [],
                toolResults := [], responses := [], tokenUsage := TokenUsage.zero,
                error := none }).2.toolCalls ++ evs
            toolResults := (applyUsage (responses 0)
              { st0 with currentTokenUsage := TokenUsage.zero }
              { command := cmd, status := Status.executing, toolCalls := [],
                toolResults := [], responses := [], tokenUsage := TokenUsage.zero,
                error := none }).2.toolResults ++
              ((responses 0).tool_calls.take j).map
                (fun c => ⟨c.id, callContent env c⟩) }
        refine ⟨hs1, hs2, ?_, ?_, hs4⟩
        · rw [List.take_left' hlen, hs3]
          show (applyUsage (responses 0)
              { st0 with currentTokenUsage := TokenUsage.zero }
              { command := cmd, status := Status.executing, toolCalls := [],
                toolResults := [], responses := [], tokenUsage := TokenUsage.zero,
                error := none }).2.toolResults ++
              ((responses 0).tool_calls.take j).map
                (fun c => ⟨c.id, callContent env c⟩) = _
          rw [htres]
          simp
        · rw [hs3]
          show ((applyUsage (responses 0)
              { st0 with currentTokenUsage := TokenUsage.zero }
              { command := cmd, status := Status.executing, toolCalls := [],
                toolResults := [], responses := [], tokenUsage := TokenUsage.zero,
                error := none }).2.toolResults ++
              ((responses 0).tool_calls.take j).map
                (fun c => (⟨c.id, callContent env c⟩ : ToolResultEvent))).length = j
          rw [htres]
          simp only [List.nil_append, List.length_map, List.length_take]
          omega

theorem matchPaths_length (p : List Nat) (i : Nat) (cs : List Node) :
    (matchPathsList p i cs).length = countList cs := by
  induction p, i, cs using matchPathsList.induct with
  | case1 p i => simp [matchPathsList, countList]
  | case2 p i t a d v cs rest ih1 ih2 =>
    simp only [matchPathsList, countList, List.length_append, ih1, ih2]
    split <;> simp
  | case3 p i n rest hn ih =>
    cases n with
    | elem t a d v cs => exact absurd rfl (hn t a d v cs)
    | text s => simpa [matchPathsList, countList] using ih
    | comment s => simpa [matchPathsList, countList] using ih

theorem mappingFrom_find_hit (origs : List (List Nat)) :
    ∀ (n ctr id : Nat), ctr < id → id ≤ ctr + n →
      (mappingFrom origs ctr n).find? (fun m => m.1 == id) =
        some (id, origs.get? (id - 1)) := by
  intro n
  induction n with
  | zero => intro ctr id h1 h2; omega
  | succ n ih =>
    intro ctr id h1 h2
    by_cases he : ctr + 1 = id
    · subst he
      simp [mappingFrom, List.find?]
    · have hne : (ctr + 1 == id) = false := by
        simp only [beq_eq_false_iff_ne, ne_eq]
        omega
      simp only [mappingFrom, List.find?, hne]
      exact ih (ctr + 1) id (by omega) (by omega)

theorem mappingFrom_find_miss (origs : List (List Nat)) :
    ∀ (n ctr id : Nat), id ≤ ctr ∨ ctr + n < id →
      (mappingFrom origs ctr n).find? (fun m => m.1 == id) = none := by
  intro n
  induction n with
  | zero => intro ctr id _; simp [mappingFrom]
  | succ n ih =>
    intro ctr id h
    have hne : (ctr + 1 == id) = false := by
      simp only [beq_eq_false_iff_ne, ne_eq]
      omega
    simp only [mappingFrom, List.find?, hne]
    exact ih (ctr + 1) id (by omega)

theorem keepAttr_event_false (t ev : String) (hev : ev ∈ eventAttrs) :
    keepAttr t ev = false := by
  fin_cases hev <;> simp [keepAttr]

theorem hasAttrB_filterKeep_event (t ev : String) (hev : ev ∈ eventAttrs)
    (a : List (String × String)) :
    hasAttrB (a.filter (fun p => keepAttr t p.1)) ev = false := by
  unfold hasAttrB
  rw [List.any_eq_false]
  intro p hp
  obtain ⟨-, hkeep⟩ := List.mem_filter.mp hp
  intro hbeq
  rw [show p.1 = ev from by simpa using hbeq] at hkeep
  rw [keepAttr_event_false t ev hev] at hkeep
  cases hkeep

theorem matches_strip (t : String) (a : List (String × String)) :
    matchesInteractive t (a.filter (fun p => keepAttr t p.1)) =
      interactiveTags.contains t := by
  unfold matchesInteractive
  rw [show (eventAttrs.any fun ev =>
      hasAttrB (a.filter (fun p => keepAttr t p.1)) ev) = false from ?_]
  · simp
  · rw [List.any_eq_false]
    intro ev hev
    simp [hasAttrB_filterKeep_event t ev hev a]

theorem matches_strip_le (t : String) (a : List (String × String))
    (h : matchesInteractive t (a.filter (fun p => keepAttr t p.1)) = true) :
    matchesInteractive t a = true := by
  rw [matches_strip] at h
  unfold matchesInteractive
  rw [Bool.or_eq_true]
  exact Or.inl h

theorem countList_strip_le (cs : List Node) :
    countList (stripList cs) ≤ countList cs := by
  induction cs using stripList.induct with
  | case1 => simp [stripList]
  | case2 t a d v cs rest ih1 ih2 =>
    simp only [stripList, countList]
    have hsplit : (if matchesInteractive t
        (a.filter (fun p => keepAttr t p.1)) then 1 else 0) ≤
        (if matchesInteractive t a then 1 else 0) := by
      split
      · rw [if_pos (matches_strip_le t a (by assumption))]
      · omega
    omega
  | case3 n rest hn ih =>
    cases n with
    | elem t a d v cs => exact absurd rfl (hn t a d v cs)
    | text s => simpa [stripList, countList] using ih
    | comment s => simpa [stripList, countList] using ih

theorem cloneMatchCount_le_docMatches (doc : Node) :
    cloneMatchCount doc ≤ (docMatchesAll doc).length := by
  cases doc with
  | text s => simp [cloneMatchCount, cloneMatchPaths, docMatchesAll]
  | comment s => simp [cloneMatchCount, cloneMatchPaths, docMatchesAll]
  | elem t a d v cs =>
    show (matchPathsList [] 0 (stripList cs)).length ≤ _
    rw [matchPaths_length]
    unfold docMatchesAll
    rw [List.length_append, matchPaths_length]
    have := countList_strip_le cs
    omega

theorem resolve_none_of_count_lt (doc : Node) (id : Nat)
    (h : cloneMatchCount doc < id) :
    getElementById (refreshMapping doc) id = none := by
  unfold getElementById refreshMapping
  rw [mappingFrom_find_miss (docMatchesAll doc) (cloneMatchCount doc) 0 id
        (Or.inr (by omega))]

/-- An id within the stripped clone's match count resolves to the live
interactive element at that position of the live document's matches. -/
theorem resolve_hit_of_le (doc : Node) (id : Nat) (h1 : 1 ≤ id)
    (h2 : id ≤ cloneMatchCount doc) :
    ∃ p, (docMatchesAll doc).get? (id - 1) = some p ∧
      p ∈ docMatchesAll doc ∧
      getElementById (refreshMapping doc) id = some p := by
  have hlt : id - 1 < (docMatchesAll doc).length := by
    have := cloneMatchCount_le_docMatches doc
    omega
  have hget : (docMatchesAll doc).get? (id - 1) ≠ none := by
    rw [ne_eq, List.get?_eq_none]
    omega
  obtain ⟨p, hp⟩ := Option.ne_none_iff_exists.mp hget
  refine ⟨p, hp.symm, List.get?_mem hp.symm, ?_⟩
  unfold getElementById refreshMapping
  rw [mappingFrom_find_hit (docMatchesAll doc) (cloneMatchCount doc) 0 id
        (by omega) (by omega)]
  rw [hp.symm]

/-- C8 (amended): after refresh(), every id from 1 up to the number of
interactive elements matched in the attribute-stripped clone resolves to
the live element at position id (in document order) of the interactive
elements found in the live document; ids beyond the clone's match count —
including all ids of a prior snapshot after a further refresh — resolve
to none. -/
theorem C8_resolve (doc : Node) (id : Nat) :
    (1 ≤ id → id ≤ cloneMatchCount doc →
      ∃ p, (docMatchesAll doc).get? (id - 1) = some p ∧
        p ∈ docMatchesAll doc ∧
        getElementById (refreshMapping doc) id = some p) ∧
    (cloneMatchCount doc < id →
      getElementById (refreshMapping doc) id = none) := by
  constructor
  · exact resolve_hit_of_le doc id
  · exact resolve_none_of_count_lt doc id

theorem C8_resolve_witness :
    getElementById (refreshMapping exDocAttr) 5 = none :=
  (C8_resolve exDocAttr 5).2 (by
    have h : cloneMatchCount exDocAttr = 1 := by
      simp [cloneMatchCount, cloneMatchPaths, exDocAttr, stripList,
        matchPathsList, matchesInteractive, interactiveTags, eventAttrs,
        hasAttrB, keepAttr, controlTags]
    omega)

/-- C8 counterexample: the refresh finds two interactive elements in the
live document (a div carrying onclick, then a button), but stripping
removes the onclick attribute, so the clone matches only one element and
id 2 — although within the count of interactive elements found by that
refresh — resolves to nothing. -/
theorem C8_counterexample :
    (docMatchesAll exDocAttr).length = 2 ∧
    cloneMatchCount exDocAttr = 1 ∧
    getElementById (refreshMapping exDocAttr) 2 = none := by
  have h : cloneMatchCount exDocAttr = 1 := by
    simp [cloneMatchCount, cloneMatchPaths, exDocAttr, stripList,
      matchPathsList, matchesInteractive, interactiveTags, eventAttrs,
      hasAttrB, keepAttr, controlTags]
  refine ⟨?_, h, ?_⟩
  · simp [docMatchesAll, exDocAttr, matchPathsList, matchesInteractive,
      interactiveTags, eventAttrs, hasAttrB]
  · exact resolve_none_of_count_lt exDocAttr 2 (by rw [h]; omega)

theorem getAttr_mem_hasAttr (a : List (String × String)) (k v : String)
    (h : getAttr a k = some v) : hasAttrB a k = true := by
  unfold getAttr at h
  obtain ⟨pr, hfind, -⟩ := Option.map_eq_some'.mp h
  unfold hasAttrB
  rw [List.any_eq_true]
  have hpr : (pr.1 == k) = true :=
    @List.find?_some (String × String) (fun q => q.1 == k) pr a hfind
  exact ⟨pr, List.mem_of_find?_eq_some hfind, hpr⟩

theorem getAttr_none_of_hasAttr_false (a : List (String × String)) (k : String)
    (h : hasAttrB a k = false) : getAttr a k = none := by
  unfold hasAttrB at h
  unfold getAttr
  rw [Option.map_eq_none']
  rw [List.find?_eq_none]
  intro p hp hpk
  rw [List.any_eq_false] at h
  exact h p hp hpk

theorem ids_cons_split (n : Node) (l : List Node) (x : String) :
    x ∈ idsList (n :: l) ↔ x ∈ idsList [n] ∨ x ∈ idsList l := by
  cases n with
  | elem t a d v cs =>
    simp only [idsList, List.mem_append, List.not_mem_nil]
    constructor
    · rintro ((h | h) | h)
      · exact Or.inl (Or.inl (Or.inl h))
      · exact Or.inl (Or.inl (Or.inr h))
      · exact Or.inr h
    · rintro (((h | h) | h) | h)
      · exact Or.inl (Or.inl h)
      · exact Or.inl (Or.inr h)
      · cases h
      · exact Or.inr h
  | text s => simp [idsList]
  | comment s => simp [idsList]

theorem ids_mem_hasElem (cs : List Node) (x : String) (h : x ∈ idsList cs) :
    hasElemChild cs = true := by
  induction cs with
  | nil => simp [idsList] at h
  | cons n rest ih =>
    cases n with
    | elem t a d v kids => simp [hasElemChild, isElemNode]
    | text s =>
      have h' : x ∈ idsList rest := by simpa [idsList] using h
      simpa [hasElemChild, isElemNode] using ih h'
    | comment s =>
      have h' : x ∈ idsList rest := by simpa [idsList] using h
      simpa [hasElemChild, isElemNode] using ih h'

theorem ids_collapseStep (n : Node) (x : String) (h : x ∈ idsList [n]) :
    x ∈ idsList [collapseStep n] := by
  cases n with
  | text s => exact h
  | comment s => exact h
  | elem t a d v cs =>
    simp only [collapseStep]
    by_cases hg : (hasAttrB a "id" || controlTags.contains t) = true
    · rw [if_pos hg]; exact h
    · rw [if_neg hg]
      cases cs with
      | nil => exact h
      | cons c cs' =>
        cases cs' with
        | cons c2 cs'' => exact h
        | nil =>
          dsimp only
          by_cases hel : isElemNode c = true
          · rw [if_pos hel]
            have hid : hasAttrB a "id" = false := by
              rcases Bool.or_eq_false_iff.mp (Bool.not_eq_true _ |>.mp hg) with ⟨h1, -⟩
              exact h1
            have hga := getAttr_none_of_hasAttr_false a "id" hid
            simp only [idsList, hga, List.nil_append, List.append_nil] at h ⊢
            simpa using h
          · rw [if_neg hel]
            exact h

/-- The has-ID guard of `_pruneEmptyNodes`: an id attribute present
anywhere in a forest survives the prune. -/
theorem ids_pruneList (cs : List Node) (x : String) (h : x ∈ idsList cs) :
    x ∈ idsList (pruneList cs) := by
  induction cs using pruneList.induct with
  | case1 => simpa [idsList] using h
  | case2 t a d v kids rest cs2 hguard ih1 ih2 =>
    have hg : (hasAttrB a "id" || controlTags.contains t ||
        (t == "a" && hasAttrB a "href") || hasTextChild (pruneList kids) ||
        hasElemChild (pruneList kids)) = true := hguard
    simp only [idsList, List.mem_append] at h
    simp only [pruneList]
    rw [if_pos hg]
    simp only [idsList, List.mem_append]
    rcases h with (h | h) | h
    · exact Or.inl (Or.inl h)
    · exact Or.inl (Or.inr (ih1 h))
    · exact Or.inr (ih2 h)
  | case3 t a d v kids rest cs2 hguard ih1 ih2 =>
    have hg : ¬ (hasAttrB a "id" || controlTags.contains t ||
        (t == "a" && hasAttrB a "href") || hasTextChild (pruneList kids) ||
        hasElemChild (pruneList kids)) = true := hguard
    simp only [idsList, List.mem_append] at h
    simp only [pruneList]
    rw [if_neg hg]
    rcases h with (h | h) | h
    · exfalso
      cases hga : getAttr a "id" with
      | none => rw [hga] at h; simp at h
      | some iv =>
        have hb := getAttr_mem_hasAttr a "id" iv hga
        simp [hb] at hg
    · exfalso
      have h3 := ids_mem_hasElem _ _ (ih1 h)
      simp [h3] at hg
    · exact ih2 h
  | case4 n rest hn ih =>
    cases n with
    | elem t a d v kids => exact absurd rfl (hn t a d v kids)
    | text s =>
      have h' : x ∈ idsList rest := by simpa [idsList] using h
      simpa [pruneList, idsList] using ih h'
    | comment s =>
      have h' : x ∈ idsList rest := by simpa [idsList] using h
      simpa [pruneList, idsList] using ih h'

/-- The has-ID guard of `_collapseSingleChildWrappers`: an id attribute
present anywhere in a forest survives the collapse. -/
theorem ids_collapseList (cs : List Node) (x : String) (h : x ∈ idsList cs) :
    x ∈ idsList (collapseList cs) := by
  induction cs using collapseList.induct with
  | case1 => simpa [idsList] using h
  | case2 t a d v kids rest ih1 ih2 =>
    simp only [idsList, List.mem_append] at h
    simp only [collapseList]
    rw [ids_cons_split]
    rcases h with (h | h) | h
    · refine Or.inl (ids_collapseStep _ x ?_)
      simp only [idsList, List.mem_append, List.not_mem_nil]
      exact Or.inl (Or.inl h)
    · refine Or.inl (ids_collapseStep _ x ?_)
      simp only [idsList, List.mem_append, List.not_mem_nil]
      exact Or.inl (Or.inr (ih1 h))
    · exact Or.inr (ih2 h)
  | case3 n rest hn ih =>
    cases n with
    | elem t a d v kids => exact absurd rfl (hn t a d v kids)
    | text s =>
      have h' : x ∈ idsList rest := by simpa [idsList] using h
      simpa [collapseList, idsList] using ih h'
    | comment s =>
      have h' : x ∈ idsList rest := by simpa [idsList] using h
      simpa [collapseList, idsList] using ih h'

theorem C3_stop_mid_batch_witness :
    (executeCommand envStd "c" true 5 1000 (fun _ => respTwoCalls)
        (fun n => n == 2) [] initialQueueState).2.status = Status.stopped ∧
    (executeCommand envStd "c" true 5 1000 (fun _ => respTwoCalls)
        (fun n => n == 2) [] initialQueueState).2.toolResults.length = 1 ∧
    (executeCommand envStd "c" true 5 1000 (fun _ => respTwoCalls)
        (fun n => n == 2) [] initialQueueState).1.shouldStopCurrent = false := by
  have h := C3_stop_mid_batch envStd "c" 5 1000 (fun _ => respTwoCalls)
    (fun n => n == 2) [] initialQueueState 1
    (by decide) rfl (by decide) (by decide) (by decide)
    (by
      intro k hk
      have : k ≠ 2 := by omega
      simp [this])
    (by decide) (by decide)
  exact ⟨h.1, h.2.2.2.1, h.2.2.2.2⟩

/-! ## The ids present in the final serialized clone (C9) -/

theorem hasAttr_false_of_getAttr_none (a : List (String × String)) (k : String)
    (h : getAttr a k = none) : hasAttrB a k = false := by
  unfold getAttr at h
  rw [Option.map_eq_none'] at h
  rw [List.find?_eq_none] at h
  unfold hasAttrB
  rw [List.any_eq_false]
  exact h

theorem getAttr_setAttr_new (a : List (String × String)) (k v : String)
    (h : hasAttrB a k = false) : getAttr (setAttr a k v) k = some v := by
  unfold setAttr
  rw [if_neg (by simp [h])]
  unfold getAttr
  rw [List.find?_append]
  have hnone : a.find? (fun p => p.1 == k) = none := by
    rw [List.find?_eq_none]
    intro p hp hbeq
    unfold hasAttrB at h
    rw [List.any_eq_false] at h
    exact h p hp hbeq
  rw [hnone]
  simp [List.find?]

theorem keepAttr_id_false (t : String) : keepAttr t "id" = false := by
  unfold keepAttr
  rw [show ("id" == "value") = false from by decide,
      show ("id" == "checked") = false from by decide,
      show ("id" == "selected") = false from by decide]
  simp

theorem hasAttrB_filterKeep_id (t : String) (a : List (String × String)) :
    hasAttrB (a.filter (fun p => keepAttr t p.1)) "id" = false := by
  unfold hasAttrB
  rw [List.any_eq_false]
  intro p hp hbeq
  obtain ⟨-, hkeep⟩ := List.mem_filter.mp hp
  rw [show p.1 = "id" from by simpa using hbeq] at hkeep
  rw [keepAttr_id_false t] at hkeep
  cases hkeep

/-- The attribute-stripped clone carries no id attributes at all. -/
theorem ids_stripList_nil (cs : List Node) : idsList (stripList cs) = [] := by
  induction cs using stripList.induct with
  | case1 => simp [stripList, idsList]
  | case2 t a d v kids rest ih1 ih2 =>
    simp only [stripList, idsList]
    rw [getAttr_none_of_hasAttr_false _ _ (hasAttrB_filterKeep_id t a)]
    simp [ih1, ih2]
  | case3 n rest hn ih =>
    cases n with
    | elem t a d v kids => exact absurd rfl (hn t a d v kids)
    | text s => simpa [stripList, idsList] using ih
    | comment s => simpa [stripList, idsList] using ih

theorem ids_nil_elem (t : String) (a : List (String × String)) (d v : Bool)
    (kids rest : List Node)
    (h : idsList (Node.elem t a d v kids :: rest) = []) :
    getAttr a "id" = none ∧ idsList kids = [] ∧ idsList rest = [] := by
  simp only [idsList, List.append_eq_nil] at h
  obtain ⟨⟨h1, h2⟩, h3⟩ := h
  refine ⟨?_, h2, h3⟩
  cases hga : getAttr a "id" with
  | none => rfl
  | some iv => rw [hga] at h1; simp at h1

/-- `_assignElementIds` hands out exactly `countList` fresh ids. -/
theorem assignList_counter (ctr : Nat) (cs : List Node) :
    (assignList ctr cs).2 = ctr + countList cs := by
  induction ctr, cs using assignList.induct with
  | case1 ctr => simp [assignList, countList]
  | case2 ctr t a d v kids rest hm r1 ih1 ih2 =>
    have ih2' : (assignList (assignList (ctr + 1) kids).2 rest).2 =
        (assignList (ctr + 1) kids).2 + countList rest := ih2
    simp only [assignList, countList]
    rw [if_pos hm, if_pos hm]
    dsimp only
    rw [ih2', ih1]
    omega
  | case3 ctr t a d v kids rest hm r1 ih1 ih2 =>
    have ih2' : (assignList (assignList ctr kids).2 rest).2 =
        (assignList ctr kids).2 + countList rest := ih2
    simp only [assignList, countList]
    rw [if_neg hm, if_neg hm]
    dsimp only
    rw [ih2', ih1]
    omega
  | case4 ctr n rest hn ih =>
    cases n with
    | elem t a d v kids => exact absurd rfl (hn t a d v kids)
    | text s => simpa [assignList, countList] using ih
    | comment s => simpa [assignList, countList] using ih

/-- On an id-free forest, every id attribute present after
`_assignElementIds` is the decimal rendering of a counter value in the
half-open interval handed out by the walk. -/
theorem assignList_ids (ctr : Nat) (cs : List Node) :
    idsList cs = [] → ∀ x : String, x ∈ idsList (assignList ctr cs).1 →
      ∃ k, x = toString k ∧ ctr ≤ k ∧ k < (assignList ctr cs).2 := by
  induction ctr, cs using assignList.induct with
  | case1 ctr =>
    intro hno x hx
    simp [assignList, idsList] at hx
  | case2 ctr t a d v kids rest hm r1 ih1 ih2 =>
    intro hno x hx
    obtain ⟨hga, hkids, hrest⟩ := ids_nil_elem t a d v kids rest hno
    have hb := hasAttr_false_of_getAttr_none a "id" hga
    have hga2 := getAttr_setAttr_new a "id" (toString ctr) hb
    have hc1 : (assignList (ctr + 1) kids).2 = (ctr + 1) + countList kids :=
      assignList_counter (ctr + 1) kids
    have hc2 : (assignList (assignList (ctr + 1) kids).2 rest).2 =
        (assignList (ctr + 1) kids).2 + countList rest :=
      assignList_counter _ rest
    have htot : (assignList ctr (Node.elem t a d v kids :: rest)).2 =
        ctr + (1 + countList kids + countList rest) := by
      rw [assignList_counter]
      simp only [countList]
      rw [if_pos hm]
    have he : (assignList ctr (Node.elem t a d v kids :: rest)).1 =
        Node.elem t (setAttr a "id" (toString ctr)) d v
            (assignList (ctr + 1) kids).1 ::
          (assignList (assignList (ctr + 1) kids).2 rest).1 := by
      simp only [assignList]
      rw [if_pos hm]
    rw [he] at hx
    simp only [idsList, hga2, List.mem_append, List.mem_singleton] at hx
    have ih2' : idsList rest = [] → ∀ y : String,
        y ∈ idsList (assignList (assignList (ctr + 1) kids).2 rest).1 →
          ∃ k, y = toString k ∧ (assignList (ctr + 1) kids).2 ≤ k ∧
            k < (assignList (assignList (ctr + 1) kids).2 rest).2 := ih2
    rcases hx with (hx1 | hx2) | hx3
    · exact ⟨ctr, hx1, Nat.le_refl ctr, by rw [htot]; omega⟩
    · obtain ⟨k, hk, hk1, hk2⟩ := ih1 hkids x hx2
      refine ⟨k, hk, by omega, ?_⟩
      rw [htot]
      rw [hc1] at hk2
      omega
    · obtain ⟨k, hk, hk1, hk2⟩ := ih2' hrest x hx3
      refine ⟨k, hk, ?_, ?_⟩
      · rw [hc1] at hk1; omega
      · rw [htot]
        rw [hc2, hc1] at hk2
        omega
  | case3 ctr t a d v kids rest hm r1 ih1 ih2 =>
    intro hno x hx
    obtain ⟨hga, hkids, hrest⟩ := ids_nil_elem t a d v kids rest hno
    have hc1 : (assignList ctr kids).2 = ctr + countList kids :=
      assignList_counter ctr kids
    have hc2 : (assignList (assignList ctr kids).2 rest).2 =
        (assignList ctr kids).2 + countList rest :=
      assignList_counter _ rest
    have htot : (assignList ctr (Node.elem t a d v kids :: rest)).2 =
        ctr + (0 + countList kids + countList rest) := by
      rw [assignList_counter]
      simp only [countList]
      rw [if_neg hm]
    have he : (assignList ctr (Node.elem t a d v kids :: rest)).1 =
        Node.elem t a d v (assignList ctr kids).1 ::
          (assignList (assignList ctr kids).2 rest).1 := by
      simp only [assignList]
      rw [if_neg hm]
    rw [he] at hx
    simp only [idsList, hga, List.mem_append, List.not_mem_nil, false_or] at hx
    have ih2' : idsList rest = [] → ∀ y : String,
        y ∈ idsList (assignList (assignList ctr kids).2 rest).1 →
          ∃ k, y = toString k ∧ (assignList ctr kids).2 ≤ k ∧
            k < (assignList (assignList ctr kids).2 rest).2 := ih2
    rcases hx with hx2 | hx3
    · obtain ⟨k, hk, hk1, hk2⟩ := ih1 hkids x hx2
      refine ⟨k, hk, hk1, ?_⟩
      rw [htot]
      rw [hc1] at hk2
      omega
    · obtain ⟨k, hk, hk1, hk2⟩ := ih2' hrest x hx3
      refine ⟨k, hk, ?_, ?_⟩
      · rw [hc1] at hk1; omega
      · rw [htot]
        rw [hc2, hc1] at hk2
        omega
  | case4 ctr n rest hn ih =>
    intro hno x hx
    cases n with
    | elem t a d v kids => exact absurd rfl (hn t a d v kids)
    | text s =>
      have hno' : idsList rest = [] := by simpa [idsList] using hno
      have he : (assignList ctr (Node.text s :: rest)).1 =
          Node.text s :: (assignList ctr rest).1 := by
        simp only [assignList]
      rw [he] at hx
      have hx' : x ∈ idsList (assignList ctr rest).1 := by
        simpa [idsList] using hx
      have htot : (assignList ctr (Node.text s :: rest)).2 =
          (assignList ctr rest).2 := by
        rw [assignList_counter, assignList_counter]
        simp [countList]
      rw [htot]
      exact ih hno' x hx'
    | comment s =>
      have hno' : idsList rest = [] := by simpa [idsList] using hno
      have he : (assignList ctr (Node.comment s :: rest)).1 =
          Node.comment s :: (assignList ctr rest).1 := by
        simp only [assignList]
      rw [he] at hx
      have hx' : x ∈ idsList (assignList ctr rest).1 := by
        simpa [idsList] using hx
      have htot : (assignList ctr (Node.comment s :: rest)).2 =
          (assignList ctr rest).2 := by
        rw [assignList_counter, assignList_counter]
        simp [countList]
      rw [htot]
      exact ih hno' x hx'

/-- Blanking script subtrees introduces no id attribute. -/
theorem ids_sub_blankList (cs : List Node) (x : String)
    (h : x ∈ idsList (blankList cs)) : x ∈ idsList cs := by
  induction cs using blankList.induct with
  | case1 => simpa [blankList] using h
  | case2 t a d v kids rest ih1 ih2 =>
    simp only [blankList] at h
    by_cases hs : scriptTags.contains t = true
    · rw [if_pos hs] at h
      simp only [idsList, List.mem_append, List.not_mem_nil, or_false] at h
      simp only [idsList, List.mem_append]
      rcases h with h | h
      · exact Or.inl (Or.inl h)
      · exact Or.inr (ih2 h)
    · rw [if_neg hs] at h
      simp only [idsList, List.mem_append] at h ⊢
      rcases h with (h | h) | h
      · exact Or.inl (Or.inl h)
      · exact Or.inl (Or.inr (ih1 h))
      · exact Or.inr (ih2 h)
  | case3 n rest hn ih =>
    cases n with
    | elem t a d v kids => exact absurd rfl (hn t a d v kids)
    | text s =>
      have h' : x ∈ idsList (blankList rest) := by
        simpa [blankList, idsList] using h
      simpa [idsList] using ih h'
    | comment s =>
      have h' : x ∈ idsList (blankList rest) := by
        simpa [blankList, idsList] using h
      simpa [idsList] using ih h'

/-- Comment removal introduces no id attribute. -/
theorem ids_sub_removeComments (cs : List Node) (x : String)
    (h : x ∈ idsList (removeCommentsList cs)) : x ∈ idsList cs := by
  induction cs using removeCommentsList.induct with
  | case1 => simpa [removeCommentsList] using h
  | case2 s rest ih =>
    have h' : x ∈ idsList (removeCommentsList rest) := by
      simpa [removeCommentsList] using h
    simpa [idsList] using ih h'
  | case3 t a d v kids rest ih1 ih2 =>
    simp only [removeCommentsList] at h
    simp only [idsList, List.mem_append] at h ⊢
    rcases h with (h | h) | h
    · exact Or.inl (Or.inl h)
    · exact Or.inl (Or.inr (ih1 h))
    · exact Or.inr (ih2 h)
  | case4 n rest hc he ih =>
    cases n with
    | comment s => exact absurd rfl (hc s)
    | elem t a d v kids => exact absurd rfl (he t a d v kids)
    | text s =>
      have h' : x ∈ idsList (removeCommentsList rest) := by
        simpa [removeCommentsList, idsList] using h
      simpa [idsList] using ih h'

/-- Hidden-element removal introduces no id attribute. -/
theorem ids_sub_removeHidden (cs : List Node) (x : String)
    (h : x ∈ idsList (removeHiddenList cs)) : x ∈ idsList cs := by
  induction cs using removeHiddenList.induct with
  | case1 => simpa [removeHiddenList] using h
  | case2 t a d v kids rest hhid ih =>
    have h' : x ∈ idsList (removeHiddenList rest) := by
      simp only [removeHiddenList] at h
      rw [if_pos hhid] at h
      exact h
    simp only [idsList, List.mem_append]
    exact Or.inr (ih h')
  | case3 t a d v kids rest hhid ih1 ih2 =>
    simp only [removeHiddenList] at h
    rw [if_neg hhid] at h
    simp only [idsList, List.mem_append] at h ⊢
    rcases h with (h | h) | h
    · exact Or.inl (Or.inl h)
    · exact Or.inl (Or.inr (ih1 h))
    · exact Or.inr (ih2 h)
  | case4 n rest hn ih =>
    cases n with
    | elem t a d v kids => exact absurd rfl (hn t a d v kids)
    | text s =>
      have h' : x ∈ idsList (removeHiddenList rest) := by
        simpa [removeHiddenList, idsList] using h
      simpa [idsList] using ih h'
    | comment s =>
      have h' : x ∈ idsList (removeHiddenList rest) := by
        simpa [removeHiddenList, idsList] using h
      simpa [idsList] using ih h'

/-- The empty-wrapper prune introduces no id attribute. -/
theorem ids_sub_pruneList (cs : List Node) (x : String)
    (h : x ∈ idsList (pruneList cs)) : x ∈ idsList cs := by
  induction cs using pruneList.induct with
  | case1 => simpa [pruneList] using h
  | case2 t a d v kids rest cs2 hguard ih1 ih2 =>
    have hg : (hasAttrB a "id" || controlTags.contains t ||
        (t == "a" && hasAttrB a "href") || hasTextChild (pruneList kids) ||
        hasElemChild (pruneList kids)) = true := hguard
    simp only [pruneList] at h
    rw [if_pos hg] at h
    simp only [idsList, List.mem_append] at h ⊢
    rcases h with (h | h) | h
    · exact Or.inl (Or.inl h)
    · exact Or.inl (Or.inr (ih1 h))
    · exact Or.inr (ih2 h)
  | case3 t a d v kids rest cs2 hguard ih1 ih2 =>
    have hg : ¬ (hasAttrB a "id" || controlTags.contains t ||
        (t == "a" && hasAttrB a "href") || hasTextChild (pruneList kids) ||
        hasElemChild (pruneList kids)) = true := hguard
    simp only [pruneList] at h
    rw [if_neg hg] at h
    simp only [idsList, List.mem_append]
    exact Or.inr (ih2 h)
  | case4 n rest hn ih =>
    cases n with
    | elem t a d v kids => exact absurd rfl (hn t a d v kids)
    | text s =>
      have h' : x ∈ idsList (pruneList rest) := by
        simpa [pruneList, idsList] using h
      simpa [idsList] using ih h'
    | comment s =>
      have h' : x ∈ idsList (pruneList rest) := by
        simpa [pruneList, idsList] using h
      simpa [idsList] using ih h'

theorem ids_sub_collapseStep (n : Node) (x : String)
    (h : x ∈ idsList [collapseStep n]) : x ∈ idsList [n] := by
  cases n with
  | text s => exact h
  | comment s => exact h
  | elem t a d v cs =>
    simp only [collapseStep] at h
    by_cases hg : (hasAttrB a "id" || controlTags.contains t) = true
    · rw [if_pos hg] at h; exact h
    · rw [if_neg hg] at h
      cases cs with
      | nil => exact h
      | cons c cs' =>
        cases cs' with
        | cons c2 cs'' => exact h
        | nil =>
          dsimp only at h
          by_cases hel : isElemNode c = true
          · rw [if_pos hel] at h
            simp only [idsList, List.mem_append, List.not_mem_nil, or_false]
            exact Or.inr h
          · rw [if_neg hel] at h
            exact h

/-- The single-child wrapper collapse introduces no id attribute. -/
theorem ids_sub_collapseList (cs : List Node) (x : String)
    (h : x ∈ idsList (collapseList cs)) : x ∈ idsList cs := by
  induction cs using collapseList.induct with
  | case1 => simpa [collapseList] using h
  | case2 t a d v kids rest ih1 ih2 =>
    simp only [collapseList] at h
    rw [ids_cons_split] at h
    rcases h with h | h
    · have h2 := ids_sub_collapseStep _ x h
      simp only [idsList, List.mem_append, List.not_mem_nil, or_false] at h2
      simp only [idsList, List.mem_append]
      rcases h2 with h2 | h2
      · exact Or.inl (Or.inl h2)
      · exact Or.inl (Or.inr (ih1 h2))
    · simp only [idsList, List.mem_append]
      exact Or.inr (ih2 h)
  | case3 n rest hn ih =>
    cases n with
    | elem t a d v kids => exact absurd rfl (hn t a d v kids)
    | text s =>
      have h' : x ∈ idsList (collapseList rest) := by
        simpa [collapseList, idsList] using h
      simpa [idsList] using ih h'
    | comment s =>
      have h' : x ∈ idsList (collapseList rest) := by
        simpa [collapseList, idsList] using h
      simpa [idsList] using ih h'

/-- C9: the has-ID guards hold — an id attribute present anywhere in a
forest survives both the empty-wrapper prune and the single-child wrapper
collapse unchanged — and consequently every id attribute on a non-root
element of the final serialized clone is the decimal rendering of some k
with 1 ≤ k ≤ the stripped clone's interactive-match count, which
getElementById resolves through the refresh mapping to a live interactive
element of the original document. -/
theorem C9_id_guard (doc : Node) (x : String) :
    (∀ cs : List Node, x ∈ idsList cs → x ∈ idsList (pruneList cs)) ∧
    (∀ cs : List Node, x ∈ idsList cs → x ∈ idsList (collapseList cs)) ∧
    (x ∈ descIds (finalClone doc) →
      ∃ k p, x = toString k ∧ 1 ≤ k ∧ k ≤ cloneMatchCount doc ∧
        getElementById (refreshMapping doc) k = some p ∧
        p ∈ docMatchesAll doc) := by
  refine ⟨fun cs => ids_pruneList cs x, fun cs => ids_collapseList cs x, ?_⟩
  intro hx
  cases doc with
  | text s => simp [finalClone, assignClone, onChildren, descIds] at hx
  | comment s => simp [finalClone, assignClone, onChildren, descIds] at hx
  | elem t a d v cs =>
    simp only [finalClone, assignClone, onChildren, descIds] at hx
    have hx' : x ∈ idsList ((assignList 1 (stripList cs)).1) :=
      ids_sub_blankList _ x (ids_sub_removeComments _ x
        (ids_sub_removeHidden _ x (ids_sub_pruneList _ x
          (ids_sub_collapseList _ x hx))))
    obtain ⟨k, hk, h1, h2⟩ :=
      assignList_ids 1 (stripList cs) (ids_stripList_nil cs) x hx'
    have hcnt := assignList_counter 1 (stripList cs)
    have hcm : cloneMatchCount (Node.elem t a d v cs) =
        countList (stripList cs) := by
      simp only [cloneMatchCount, cloneMatchPaths]
      exact matchPaths_length [] 0 (stripList cs)
    have hk2 : k ≤ cloneMatchCount (Node.elem t a d v cs) := by
      rw [hcm]
      rw [hcnt] at h2
      omega
    obtain ⟨p, -, hpmem, hres⟩ :=
      resolve_hit_of_le (Node.elem t a d v cs) k h1 hk2
    exact ⟨k, p, hk, h1, hk2, hres, hpmem⟩

theorem C9_id_guard_witness :
    "7" ∈ idsList (pruneList exForestId7) :=
  (C9_id_guard (Node.text "") "7").1 exForestId7 (by
    simp [exForestId7, idsList, getAttr, List.find?])

/-- C9 counterexample: attribute stripping walks `querySelectorAll('*')`,
i.e. the descendants of the clone root only, so a pre-existing id
attribute on the root element itself survives into the final serialized
output even though it resolves to no element in the refresh mapping. -/
theorem C9_counterexample :
    "2" ∈ idsList [finalClone exDocRootId] ∧
    getElementById (refreshMapping exDocRootId) 2 = none := by
  constructor
  · have hga : getAttr [("id", "2")] "id" = some "2" := by decide
    simp only [finalClone, assignClone, onChildren, exDocRootId, idsList,
      hga, List.mem_append, List.not_mem_nil, or_false]
    left
    simp
  · apply resolve_none_of_count_lt
    have h : cloneMatchCount exDocRootId = 1 := by
      simp [cloneMatchCount, cloneMatchPaths, exDocRootId, stripList,
        matchPathsList, matchesInteractive, interactiveTags, eventAttrs,
        hasAttrB, keepAttr, controlTags]
    omega

end Bender
